import Mathlib

/-!
Verification development for the codetracer-python-recorder repository.

The tracing runtime under `src/trace.py` (pure-Python recorder), the
session wrappers under `codetracer-python-recorder/codetracer_python_recorder/`
(`session.py`, `api.py`, `__main__.py`, `trace_balance.py`) and the I/O
ledger-mirror prototype under
`design-docs/prototypes/io_capture_ledger_mirror_prototype.py` are embedded
shallowly below, and the specified properties are settled against the
embedding.

Conventions: Python strings are Lean `String`s, machine integers are `Int`
(Python ints are unbounded), bytes are `List Nat`, Python dicts that only
grow are insertion-ordered association lists, and floats are carried as
their opaque textual representation (no claim depends on float arithmetic).
-/

set_option linter.unnecessarySeqFocus false

namespace TracePy

/-- `str.startswith(prefix)`, modelled over the character list. -/
def strStartsWith (s pre : String) : Bool :=
  List.isPrefixOf pre.toList s.toList

/-- `text.rstrip("\n")`: drop trailing newline characters. -/
def rstripNewline (t : String) : String :=
  String.mk ((t.toList.reverse.dropWhile (fun c => c = '\n')).reverse)

/-- Split a path on `'/'` into its nonempty components
(model of the component view used by `os.path` on POSIX). -/
def splitSlashAux : List Char → List Char → List String
  | [], acc => [String.mk acc.reverse]
  | '/' :: rest, acc => String.mk acc.reverse :: splitSlashAux rest []
  | c :: rest, acc => splitSlashAux rest (c :: acc)

def splitSlash (s : String) : List String :=
  (splitSlashAux s.toList []).filter (fun c => c ≠ "")

def joinSlash : List String → String
  | [] => ""
  | [x] => x
  | x :: rest => x ++ "/" ++ joinSlash rest

/-- `os.path.abspath` on POSIX for already-normalized inputs: an absolute
path is returned verbatim, a relative one is resolved against the process
working directory `cwd`. -/
def abspathM (cwd p : String) : String :=
  if strStartsWith p "/" then p
  else if cwd = "/" then "/" ++ p else cwd ++ "/" ++ p

/-- `str(Path(p).parent)` for an absolute path `p`. -/
def parentDir (p : String) : String :=
  let parts := (splitSlash p).dropLast
  if parts = [] then "/" else "/" ++ joinSlash parts

def commonLen : List String → List String → Nat
  | a :: as, b :: bs => if a = b then commonLen as bs + 1 else 0
  | _, _ => 0

/-- `os.path.relpath(path, start)` on POSIX (never raises there; the
`ValueError` branch of `Tracer._register_path` is Windows-only). -/
def relpathM (path start : String) : String :=
  let pp := splitSlash path
  let sp := splitSlash start
  let k := commonLen pp sp
  let parts := List.replicate (sp.length - k) ".." ++ pp.drop k
  if parts = [] then "." else joinSlash parts

/-- Association-list lookup used for the Python dicts of the tracer
(`path_map`, `var_map`, `functions`, `types`); keys are only ever added. -/
def lookupK {κ : Type} [DecidableEq κ] (k : κ) : List (κ × Nat) → Option Nat
  | [] => none
  | (k', v) :: rest => if k = k' then some v else lookupK k rest
mutual
/-- Python runtime values as seen by `Tracer._value` (acyclic view).
`float`/`complex` components and the `str(val)` rendering of bytes and
objects without a `__dict__` are carried verbatim as strings. `other`
stands for an object without a `__dict__`. -/
inductive PyVal : Type
  | bool (b : Bool)
  | int (i : Int)
  | float (repr : String)
  | str (s : String)
  | bytes (repr : String)
  | list (elems : PyValList)
  | tuple (elems : PyValList)
  | complex (re im : String)
  | none
  | func (name : String) (firstlineno : Int) (filename : String) (dict : PyDict)
  | module (name : String) (dict : PyDict)
  | obj (cls : String) (dict : PyDict)
  | other (repr : String)

/-- A Python list/tuple payload. -/
inductive PyValList : Type
  | nil
  | cons (v : PyVal) (rest : PyValList)

/-- A `__dict__`: insertion-ordered string-keyed mapping. -/
inductive PyDict : Type
  | nil
  | cons (key : String) (v : PyVal) (rest : PyDict)
end

/-- Convenience constructor for list payloads. -/
def PyValList.ofList : List PyVal → PyValList
  | [] => .nil
  | v :: rest => .cons v (ofList rest)

/-- `isinstance(val, types.FunctionType)`. -/
def PyVal.isFunc : PyVal → Bool
  | .func _ _ _ _ => true
  | _ => false

/-- `isinstance(val, types.ModuleType)` (kept distinct so the
locals-filtering claims can talk about module-valued bindings). -/
def PyVal.isModule : PyVal → Bool
  | .module _ _ => true
  | _ => false

mutual
/-- Structural size of a value; used as a provably sufficient recursion
budget for the embedding of `_value` (which recurses freely on this
acyclic view). -/
def PyVal.sz : PyVal → Nat
  | .list elems => elems.sz + 1
  | .tuple elems => elems.sz + 1
  | .func _ _ _ d => d.sz + 1
  | .module _ d => d.sz + 1
  | .obj _ d => d.sz + 1
  | _ => 1

def PyValList.sz : PyValList → Nat
  | .nil => 0
  | .cons v rest => v.sz + rest.sz + 1

def PyDict.sz : PyDict → Nat
  | .nil => 0
  | .cons _ v rest => v.sz + rest.sz + 1
end

theorem PyVal.sz_pos (v : PyVal) : 0 < v.sz := by
  cases v <;> simp [PyVal.sz]

/-- One insertion step of
`sorted(val.__dict__.items(), key=lambda kv: kv[0])`. -/
def PyDict.insertByKey (key : String) (v : PyVal) : PyDict → PyDict
  | .nil => .cons key v .nil
  | .cons k w rest =>
      if key < k then .cons key v (.cons k w rest)
      else .cons k w (insertByKey key v rest)

/-- `sorted(val.__dict__.items(), key=lambda kv: kv[0])` (insertion sort;
`__dict__` keys are distinct, so stability is irrelevant). -/
def PyDict.sortByKey : PyDict → PyDict
  | .nil => .nil
  | .cons k v rest => (sortByKey rest).insertByKey k v

/-- The `v` of each `(_, v)` item, in order: the generator
`for _, v in sorted(...)` of `_value`. -/
def PyDict.values : PyDict → PyValList
  | .nil => .nil
  | .cons _ v rest => .cons v (values rest)

theorem PyDict.sz_insertByKey (key : String) (v : PyVal) :
    ∀ d : PyDict, (d.insertByKey key v).sz = v.sz + d.sz + 1
  | .nil => rfl
  | .cons k w rest => by
      by_cases h : key < k <;>
        simp [PyDict.insertByKey, h, PyDict.sz, sz_insertByKey key v rest] <;>
        omega

theorem PyDict.sz_sortByKey : ∀ d : PyDict, d.sortByKey.sz = d.sz
  | .nil => rfl
  | .cons k v rest => by
      simp [PyDict.sortByKey, PyDict.sz, sz_insertByKey, sz_sortByKey rest]

theorem PyDict.sz_values : ∀ d : PyDict, d.values.sz = d.sz
  | .nil => rfl
  | .cons k v rest => by
      simp [PyDict.values, PyDict.sz, PyValList.sz, sz_values rest]

mutual
/-- The encoded `Value` payloads of the on-disk format (§6 of the spec). -/
inductive Value : Type
  | boolV (typeId : Nat) (b : Bool)
  | intV (typeId : Nat) (i : Int)
  | floatV (typeId : Nat) (f : String)
  | strV (typeId : Nat) (text : String)
  | rawV (typeId : Nat) (r : String)
  | seqV (typeId : Nat) (elements : ValueList) (isSlice : Bool)
  | tupleV (typeId : Nat) (elements : ValueList)
  | structV (typeId : Nat) (fieldValues : ValueList)
  | noneV (typeId : Nat)

inductive ValueList : Type
  | nil
  | cons (v : Value) (rest : ValueList)
end

/-- The tagged trace events (§6 of the spec; `trace.py` emit sites). -/
inductive Event : Type
  | path (p : String)
  | variableName (n : String)
  | typeE (kind : Nat) (langType : String)
  | functionE (pathId : Nat) (line : Int) (name : String)
  | call (functionId : Nat) (args : List (Nat × Value))
  | ret (returnValue : Value)
  | step (pathId : Nat) (line : Int)
  | valueE (variableId : Nat) (value : Value)
  | ioEvent (kind : Nat) (metadata content : String)

/-- The mutable state of `trace.py`'s `Tracer` (plus the process `cwd`
that `os.path.abspath` consults). -/
structure TracerState : Type where
  cwd : String
  programPath : String
  programDir : String
  events : List Event
  paths : List String
  pathMap : List (String × Nat)
  varMap : List (String × Nat)
  functions : List ((String × Int × String) × Nat)
  typesMap : List (String × Nat)

/-- `Tracer.emit`. -/
def emitE (s : TracerState) (e : Event) : TracerState :=
  { s with events := s.events ++ [e] }

/-- `Tracer._register_type`. -/
def registerType (s : TracerState) (kind : Nat) (name : String) :
    Nat × TracerState :=
  match lookupK name s.typesMap with
  | some id => (id, s)
  | Option.none =>
      let id := s.typesMap.length
      let s := { s with typesMap := s.typesMap ++ [(name, id)] }
      (id, emitE s (.typeE kind name))

/-- `Tracer._ensure_type`. -/
def ensureType (s : TracerState) (kind : Nat) (name : String) :
    Nat × TracerState :=
  match lookupK name s.typesMap with
  | some id => (id, s)
  | Option.none => registerType s kind name

/-- `self.types[name]` for the pre-registered builtin type names
(the lookup cannot fail in a traced run; `getD 0` stands for the
impossible `KeyError`). -/
def typesGet (s : TracerState) (name : String) : Nat :=
  (lookupK name s.typesMap).getD 0

/-- `Tracer._register_path`: non-empty paths are made absolute and then
rewritten relative to the program directory before interning. -/
def registerPath (s : TracerState) (path : String) : Nat × TracerState :=
  let path :=
    if path ≠ "" then relpathM (abspathM s.cwd path) s.programDir else path
  match lookupK path s.pathMap with
  | some id => (id, s)
  | Option.none =>
      let id := s.paths.length
      let s := { s with pathMap := s.pathMap ++ [(path, id)],
                        paths := s.paths ++ [path] }
      (id, emitE s (.path path))

/-- `Tracer._register_function` (the `Function` event's `path_id` is
produced by the nested `_register_path` call, so a fresh `Path` definition
precedes the `Function` event). -/
def registerFunction (s : TracerState) (path : String) (line : Int)
    (name : String) : Nat × TracerState :=
  match lookupK (path, line, name) s.functions with
  | some id => (id, s)
  | Option.none =>
      let funcId := s.functions.length
      let s := { s with functions := s.functions ++ [((path, line, name), funcId)] }
      let (pid, s) := registerPath s path
      (funcId, emitE s (.functionE pid line name))

/-- `Tracer._var_id`. -/
def varId (s : TracerState) (name : String) : Nat × TracerState :=
  match lookupK name s.varMap with
  | some id => (id, s)
  | Option.none =>
      let id := s.varMap.length
      let s := { s with varMap := s.varMap ++ [(name, id)] }
      (id, emitE s (.variableName name))

mutual
/-- `Tracer._value` with an explicit recursion budget (each branch
mirrors one `isinstance` arm of the source, in source order). `_value`
itself recurses without any bound on this acyclic view; the budget only
makes the recursion structural, and `tracerValue` below instantiates it
with `PyVal.sz`, which `tracerValueF_fuel` proves sufficient, so the
out-of-budget fallbacks at the bottom are unreachable. -/
def tracerValueF : Nat → TracerState → PyVal → Value × TracerState
  | _, s, .bool b => (.boolV (typesGet s "Bool") b, s)
  | _, s, .int i => (.intV (typesGet s "Integer") i, s)
  | _, s, .float f =>
      let (tid, s) := ensureType s 8 "Float"
      (.floatV tid f, s)
  | _, s, .str t => (.strV (typesGet s "String") t, s)
  | _, s, .bytes r =>
      let (tid, s) := ensureType s 16 "Bytes"
      (.rawV tid r, s)
  | fuel + 1, s, .list elems =>
      let (tid, s) := ensureType s 0 "Array"
      let (vs, s) := tracerValueListF fuel s elems
      (.seqV tid vs false, s)
  | fuel + 1, s, .tuple elems =>
      let (tid, s) := ensureType s 27 "Tuple"
      let (vs, s) := tracerValueListF fuel s elems
      (.tupleV tid vs, s)
  | _, s, .complex re im =>
      let (tid, s) := ensureType s 6 "Complex"
      -- `self._value(val.real)` and `self._value(val.imag)` both take the
      -- float arm of `_value`; that arm is inlined here.
      let (ftid, s) := ensureType s 8 "Float"
      let (ftid', s) := ensureType s 8 "Float"
      (.structV tid (.cons (.floatV ftid re) (.cons (.floatV ftid' im) .nil)), s)
  | _, s, .none => (.noneV (typesGet s "No type"), s)
  | fuel + 1, s, .func _ _ _ dict =>
      let (tid, s) := ensureType s 6 "function"
      let (vs, s) := tracerValueListF fuel s dict.sortByKey.values
      (.structV tid vs, s)
  | fuel + 1, s, .module _ dict =>
      let (tid, s) := ensureType s 6 "module"
      let (vs, s) := tracerValueListF fuel s dict.sortByKey.values
      (.structV tid vs, s)
  | fuel + 1, s, .obj cls dict =>
      let (tid, s) := ensureType s 6 cls
      let (vs, s) := tracerValueListF fuel s dict.sortByKey.values
      (.structV tid vs, s)
  | _, s, .other r =>
      let (tid, s) := ensureType s 16 "Object"
      (.rawV tid r, s)
  | 0, s, .list _ => (.noneV 0, s)
  | 0, s, .tuple _ => (.noneV 0, s)
  | 0, s, .func _ _ _ _ => (.noneV 0, s)
  | 0, s, .module _ _ => (.noneV 0, s)
  | 0, s, .obj _ _ => (.noneV 0, s)

/-- The element comprehensions of `_value`, left to right. -/
def tracerValueListF : Nat → TracerState → PyValList → ValueList × TracerState
  | _, s, .nil => (.nil, s)
  | fuel + 1, s, .cons v rest =>
      let (w, s) := tracerValueF fuel s v
      let (ws, s) := tracerValueListF fuel s rest
      (.cons w ws, s)
  | 0, s, .cons _ _ => (.nil, s)
end

/-- `Tracer._value`. -/
def tracerValue (s : TracerState) (v : PyVal) : Value × TracerState :=
  tracerValueF v.sz s v

def tracerValueList (s : TracerState) (l : PyValList) :
    ValueList × TracerState :=
  tracerValueListF l.sz s l

/-- A sufficient budget is irrelevant: any two budgets at least the
structural size of the input give the same result. -/
theorem tracerValueF_fuel :
    ∀ n, (∀ s v f, PyVal.sz v ≤ n → PyVal.sz v ≤ f →
            tracerValueF n s v = tracerValueF f s v) ∧
         (∀ s l f, PyValList.sz l ≤ n → PyValList.sz l ≤ f →
            tracerValueListF n s l = tracerValueListF f s l) := by
  intro n
  induction n with
  | zero =>
      constructor
      · intro s v f hv _
        exact absurd hv (by have := PyVal.sz_pos v; omega)
      · intro s l f hl _
        cases l with
        | nil => cases f <;> rfl
        | cons v rest => simp [PyValList.sz] at hl
  | succ n ih =>
      constructor
      · intro s v f hv hf
        have hvpos := PyVal.sz_pos v
        obtain ⟨m, rfl⟩ : ∃ m, f = m + 1 := ⟨f - 1, by omega⟩
        cases v with
        | list elems =>
            simp only [tracerValueF]
            rw [ih.2 _ elems m (by simp [PyVal.sz] at hv; omega)
              (by simp [PyVal.sz] at hf; omega)]
        | tuple elems =>
            simp only [tracerValueF]
            rw [ih.2 _ elems m (by simp [PyVal.sz] at hv; omega)
              (by simp [PyVal.sz] at hf; omega)]
        | func nm ln fn dict =>
            simp only [tracerValueF]
            have hd : dict.sortByKey.values.sz = dict.sz := by
              rw [PyDict.sz_values, PyDict.sz_sortByKey]
            rw [ih.2 _ dict.sortByKey.values m
              (by simp [PyVal.sz] at hv; omega) (by simp [PyVal.sz] at hf; omega)]
        | module nm dict =>
            simp only [tracerValueF]
            have hd : dict.sortByKey.values.sz = dict.sz := by
              rw [PyDict.sz_values, PyDict.sz_sortByKey]
            rw [ih.2 _ dict.sortByKey.values m
              (by simp [PyVal.sz] at hv; omega) (by simp [PyVal.sz] at hf; omega)]
        | obj cls dict =>
            simp only [tracerValueF]
            have hd : dict.sortByKey.values.sz = dict.sz := by
              rw [PyDict.sz_values, PyDict.sz_sortByKey]
            rw [ih.2 _ dict.sortByKey.values m
              (by simp [PyVal.sz] at hv; omega) (by simp [PyVal.sz] at hf; omega)]
        | bool b => rfl
        | int i => rfl
        | float r => rfl
        | str t => rfl
        | bytes r => rfl
        | complex re im => rfl
        | none => rfl
        | other r => rfl
      · intro s l f hl hf
        cases l with
        | nil => cases f <;> rfl
        | cons v rest =>
            obtain ⟨m, rfl⟩ : ∃ m, f = m + 1 := by
              cases f with
              | zero => simp [PyValList.sz] at hf
              | succ m => exact ⟨m, rfl⟩
            simp only [tracerValueListF]
            simp [PyValList.sz] at hl hf
            rw [ih.1 _ v m (by omega) (by omega),
              ih.2 _ rest m (by omega) (by omega)]

theorem tracerValueF_eq (s : TracerState) (v : PyVal) (f : Nat)
    (h : PyVal.sz v ≤ f) : tracerValueF f s v = tracerValue s v :=
  (tracerValueF_fuel f).1 s v v.sz h le_rfl

theorem tracerValueListF_eq (s : TracerState) (l : PyValList) (f : Nat)
    (h : PyValList.sz l ≤ f) : tracerValueListF f s l = tracerValueList s l :=
  (tracerValueF_fuel f).2 s l l.sz h le_rfl

/-- `_value` on a list value. -/
theorem tracerValue_list (s : TracerState) (elems : PyValList) :
    tracerValue s (.list elems) =
      (let (tid, s) := ensureType s 0 "Array"
       let (vs, s) := tracerValueList s elems
       (.seqV tid vs false, s)) := by
  show tracerValueF (PyVal.sz (.list elems)) s (.list elems) = _
  rw [show PyVal.sz (.list elems) = elems.sz + 1 from rfl]
  simp only [tracerValueF]
  rw [tracerValueListF_eq _ _ _ le_rfl]

/-- `_value` on a tuple value. -/
theorem tracerValue_tuple (s : TracerState) (elems : PyValList) :
    tracerValue s (.tuple elems) =
      (let (tid, s) := ensureType s 27 "Tuple"
       let (vs, s) := tracerValueList s elems
       (.tupleV tid vs, s)) := by
  show tracerValueF (PyVal.sz (.tuple elems)) s (.tuple elems) = _
  rw [show PyVal.sz (.tuple elems) = elems.sz + 1 from rfl]
  simp only [tracerValueF]
  rw [tracerValueListF_eq _ _ _ le_rfl]

/-- `_value` on an object with a `__dict__`. -/
theorem tracerValue_obj (s : TracerState) (cls : String) (dict : PyDict) :
    tracerValue s (.obj cls dict) =
      (let (tid, s) := ensureType s 6 cls
       let (vs, s) := tracerValueList s dict.sortByKey.values
       (.structV tid vs, s)) := by
  show tracerValueF (PyVal.sz (.obj cls dict)) s (.obj cls dict) = _
  rw [show PyVal.sz (.obj cls dict) = dict.sz + 1 from rfl]
  simp only [tracerValueF]
  rw [tracerValueListF_eq _ _ _ (by
    rw [PyDict.sz_values, PyDict.sz_sortByKey])]

/-- `_value` on a function object (it has a `__dict__`). -/
theorem tracerValue_func (s : TracerState) (nm : String) (ln : Int)
    (fn : String) (dict : PyDict) :
    tracerValue s (.func nm ln fn dict) =
      (let (tid, s) := ensureType s 6 "function"
       let (vs, s) := tracerValueList s dict.sortByKey.values
       (.structV tid vs, s)) := by
  show tracerValueF (PyVal.sz (.func nm ln fn dict)) s (.func nm ln fn dict) = _
  rw [show PyVal.sz (.func nm ln fn dict) = dict.sz + 1 from rfl]
  simp only [tracerValueF]
  rw [tracerValueListF_eq _ _ _ (by
    rw [PyDict.sz_values, PyDict.sz_sortByKey])]

/-- `_value` on a module object (it has a `__dict__`). -/
theorem tracerValue_module (s : TracerState) (nm : String) (dict : PyDict) :
    tracerValue s (.module nm dict) =
      (let (tid, s) := ensureType s 6 "module"
       let (vs, s) := tracerValueList s dict.sortByKey.values
       (.structV tid vs, s)) := by
  show tracerValueF (PyVal.sz (.module nm dict)) s (.module nm dict) = _
  rw [show PyVal.sz (.module nm dict) = dict.sz + 1 from rfl]
  simp only [tracerValueF]
  rw [tracerValueListF_eq _ _ _ (by
    rw [PyDict.sz_values, PyDict.sz_sortByKey])]

theorem tracerValueList_cons (s : TracerState) (v : PyVal) (rest : PyValList) :
    tracerValueList s (.cons v rest) =
      (let (w, s) := tracerValue s v
       let (ws, s) := tracerValueList s rest
       (.cons w ws, s)) := by
  show tracerValueListF (PyValList.sz (.cons v rest)) s (.cons v rest) = _
  rw [show PyValList.sz (.cons v rest) = v.sz + rest.sz + 1 from rfl]
  simp only [tracerValueListF]
  rw [tracerValueF_eq _ _ _ (by omega), tracerValueListF_eq _ _ _ (by omega)]

theorem tracerValueList_nil (s : TracerState) :
    tracerValueList s .nil = (.nil, s) := rfl

/-- One interpreter frame as the tracer callbacks see it. -/
structure Frame : Type where
  filename : String
  lineno : Int
  firstlineno : Int
  name : String
  locals : List (String × PyVal)
  argNames : List String

/-- `Tracer._capture_locals`: skip dunder names and function values, then
emit a `Value` event per remaining binding. -/
def captureLocals (s : TracerState) :
    List (String × PyVal) → TracerState
  | [] => s
  | (name, val) :: rest =>
      if strStartsWith name "__" then captureLocals s rest
      else if val.isFunc then captureLocals s rest
      else
        let (vid, s) := varId s name
        let (v, s) := tracerValue s val
        captureLocals (emitE s (.valueE vid v)) rest

/-- `Tracer._register_functions_in_locals`. -/
def registerFunctionsInLocals (s : TracerState) (f : Frame) : TracerState :=
  f.locals.foldl
    (fun s nv =>
      match nv.2 with
      | .func fname fline ffile _ =>
          if fline = f.lineno then
            (registerFunction s (abspathM s.cwd ffile) fline fname).2
          else s
      | _ => s)
    s

/-- `Tracer.handle_line`. -/
def handleLine (s : TracerState) (f : Frame) : TracerState :=
  let (pid, s) := registerPath s (abspathM s.cwd f.filename)
  let s := emitE s (.step pid f.lineno)
  let s := registerFunctionsInLocals s f
  captureLocals s f.locals

/-- The argument loop of `Tracer.handle_call`. -/
def callArgs (s : TracerState) (locals : List (String × PyVal)) :
    List String → List (Nat × Value) × TracerState
  | [] => ([], s)
  | name :: rest =>
      match locals.lookup name with
      | some v =>
          let (vid, s) := varId s name
          let (w, s) := tracerValue s v
          let (args, s) := callArgs s locals rest
          ((vid, w) :: args, s)
      | Option.none => callArgs s locals rest

/-- `Tracer.handle_call`. -/
def handleCall (s : TracerState) (f : Frame) : TracerState :=
  let (funcId, s) :=
    registerFunction s (abspathM s.cwd f.filename) f.firstlineno f.name
  let (args, s) := callArgs s f.locals f.argNames
  emitE s (.call funcId args)

/-- `Tracer.handle_return`. -/
def handleReturn (s : TracerState) (f : Frame) (arg : PyVal) : TracerState :=
  let (pid, s) := registerPath s (abspathM s.cwd f.filename)
  let s := emitE s (.step pid f.lineno)
  let s := captureLocals s f.locals
  let (vid, s) := varId s "<return_value>"
  let (v, s) := tracerValue s arg
  let s := emitE s (.valueE vid v)
  emitE s (.ret v)

/-- `StdoutInterceptor.write`: forward, then record the text (with
trailing newlines stripped) unless it is empty or a lone newline. -/
def interceptorWrite (s : TracerState) (text : String) : TracerState :=
  if text ≠ "" ∧ text ≠ "\n" then
    emitE s (.ioEvent 0 "" (rstripNewline text))
  else s

/-- `Tracer._register_builtin_types`. -/
def registerBuiltinTypes (s : TracerState) : TracerState :=
  let s := (registerType s 7 "Integer").2
  let s := (registerType s 9 "String").2
  let s := (registerType s 12 "Bool").2
  let s := (registerType s 9 "Symbol").2
  let s := (registerType s 24 "No type").2
  let s := (registerType s 8 "Float").2
  let s := (registerType s 27 "Tuple").2
  let s := (registerType s 6 "Complex").2
  (registerType s 16 "Bytes").2

/-- `Tracer.__init__`: builtin types, the empty top-level path, the
synthetic `<top-level>` function, and the opening `Call{function_id: 0}`. -/
def initTracer (cwd program : String) : TracerState :=
  let programPath := abspathM cwd program
  let s : TracerState :=
    { cwd := cwd, programPath := programPath,
      programDir := parentDir programPath,
      events := [], paths := [], pathMap := [], varMap := [],
      functions := [], typesMap := [] }
  let s := registerBuiltinTypes s
  let s := (registerPath s "").2
  let s := (registerFunction s "" 1 "<top-level>").2
  emitE s (.call 0 [])

/-- The callbacks delivered by `sys.settrace` during one run
(`return` is also reported, with `None`, for frames exiting by
exception unwinding). -/
inductive Callback : Type
  | call (f : Frame)
  | line (f : Frame)
  | ret (f : Frame) (arg : PyVal)
  | write (text : String)

/-- The filename gate of `global_trace`/`local_trace`:
`os.path.abspath(frame.f_code.co_filename).startswith(tracer.program_dir)`. -/
def framePasses (s : TracerState) (f : Frame) : Bool :=
  strStartsWith (abspathM s.cwd f.filename) s.programDir

/-- Deliver one callback the way `trace_program`'s trace functions do. -/
def stepCallback (s : TracerState) : Callback → TracerState
  | .call f => if framePasses s f then handleCall s f else s
  | .line f => if framePasses s f then handleLine s f else s
  | .ret f arg => if framePasses s f then handleReturn s f arg else s
  | .write t => interceptorWrite s t

def runCallbacks (s : TracerState) : List Callback → TracerState
  | [] => s
  | cb :: rest => runCallbacks (stepCallback s cb) rest

/-- `trace_program`: construct the tracer (which opens the top-level
`Call`), run the program under the trace hooks, and return the tracer.
No further event is emitted after the last callback. -/
def traceProgram (cwd program : String) (cbs : List Callback) : TracerState :=
  runCallbacks (initTracer cwd program) cbs

end TracePy

namespace TracePy

/-- Number of `Call` events in a stream. -/
def countCall (l : List Event) : Nat :=
  (l.filter fun e => match e with | .call _ _ => true | _ => false).length

/-- Number of `Return` events in a stream. -/
def countRet (l : List Event) : Nat :=
  (l.filter fun e => match e with | .ret _ => true | _ => false).length

/-- Number of `Path` events in a stream. -/
def countPath (l : List Event) : Nat :=
  (l.filter fun e => match e with | .path _ => true | _ => false).length

/-- Number of `VariableName` events in a stream. -/
def countVar (l : List Event) : Nat :=
  (l.filter fun e => match e with | .variableName _ => true | _ => false).length

/-- Number of `Type` events in a stream. -/
def countType (l : List Event) : Nat :=
  (l.filter fun e => match e with | .typeE _ _ => true | _ => false).length

/-- Number of `Function` events in a stream. -/
def countFun (l : List Event) : Nat :=
  (l.filter fun e => match e with | .functionE _ _ _ => true | _ => false).length

/-- The `variable_id`s of the `Value` events of a stream, in order. -/
def valueEventVarIds (l : List Event) : List Nat :=
  l.filterMap fun e => match e with | .valueE vid _ => some vid | _ => Option.none

end TracePy

namespace TraceBalance

/-!
Embedding of `codetracer_python_recorder/trace_balance.py`. The source
only ever tests key membership on each JSON event object
(`"Call" in event`), so an event is abstracted to its list of keys.
-/

/-- One JSON event object, viewed as its key set. -/
structure JsonEvent : Type where
  keys : List String

def JsonEvent.hasKey (e : JsonEvent) (k : String) : Bool := e.keys.contains k

/-- `TraceBalanceError` (the embedding keeps the offending index). -/
inductive TraceBalanceError : Type
  | bothPayloads (index : Nat)
  deriving DecidableEq

/-- `TraceBalanceResult`. -/
structure TraceBalanceResult : Type where
  call_count : Nat
  return_count : Nat
  first_negative_index : Option Nat
  deriving DecidableEq

/-- `TraceBalanceResult.is_balanced`. -/
def TraceBalanceResult.is_balanced (r : TraceBalanceResult) : Bool :=
  r.call_count == r.return_count && r.first_negative_index == Option.none

/-- `TraceBalanceResult.delta`. -/
def TraceBalanceResult.delta (r : TraceBalanceResult) : Int :=
  (r.call_count : Int) - (r.return_count : Int)

/-- The loop of `summarize_trace_balance`, with the loop state
(`index`, `calls`, `returns`, `active_calls`, `first_negative_index`)
made explicit. -/
def summarizeLoop : List JsonEvent → Nat → Nat → Nat → Int → Option Nat →
    Except TraceBalanceError TraceBalanceResult
  | [], _, calls, returns, _, firstNeg =>
      .ok ⟨calls, returns, firstNeg⟩
  | e :: rest, index, calls, returns, active, firstNeg =>
      let isCall := e.hasKey "Call"
      let isReturn := e.hasKey "Return"
      if isCall ∧ isReturn then .error (.bothPayloads index)
      else
        let calls := if isCall then calls + 1 else calls
        let active := if isCall then active + 1 else active
        let returns := if isReturn then returns + 1 else returns
        let active := if isReturn then active - 1 else active
        let firstNeg :=
          if isReturn ∧ active < 0 ∧ firstNeg = Option.none then some index
          else firstNeg
        summarizeLoop rest (index + 1) calls returns active firstNeg

/-- `summarize_trace_balance`. -/
def summarizeTraceBalance (events : List JsonEvent) :
    Except TraceBalanceError TraceBalanceResult :=
  summarizeLoop events 0 0 0 0 Option.none

def countKey (k : String) (events : List JsonEvent) : Nat :=
  (events.filter fun e => e.hasKey k).length

/-- Written from the claim's words: the index of the first event at which
the running call-minus-return count goes negative, if any. -/
def specFirstNegAux : List JsonEvent → Int → Nat → Option Nat
  | [], _, _ => Option.none
  | e :: rest, run, idx =>
      let run := run + (if e.hasKey "Call" then 1 else 0) -
        (if e.hasKey "Return" then 1 else 0)
      if run < 0 then some idx else specFirstNegAux rest run (idx + 1)

def specFirstNeg (events : List JsonEvent) : Option Nat :=
  specFirstNegAux events 0 0

def isErr {ε α : Type} : Except ε α → Bool
  | .error _ => true
  | .ok _ => false

end TraceBalance

namespace Session

/-!
Embedding of `codetracer_python_recorder/session.py` (`start`, guard at
lines 98-100) and the identical guard of `api.py` (lines 49-51). The Rust
backend behind `_start_backend`/`_is_tracing_backend` is absent from the
sources; only its tracing flag is modelled.
-/

/-- Filesystem view consulted by `_validate_trace_path`. -/
structure Fs : Type where
  pathExists : String → Bool
  isDir : String → Bool

/-- The backend state observable through `_is_tracing_backend`. -/
structure BackendState : Type where
  tracing : Bool
  deriving DecidableEq

/-- Module-level state of `session.py`: the backend plus
`_active_session` (kept as the `(path, format)` pair of the handle). -/
structure SessionState : Type where
  backend : BackendState
  activeSession : Option (String × String)
  deriving DecidableEq

/-- Python exception classes raised (or specified) around `start`.
`usageError` is the structured `UsageError` kind of the spec's §7 error
taxonomy; the Python sources under `src/` never construct it - the
already-active guard raises the builtin `RuntimeError`. -/
inductive PyError : Type
  | runtimeError (msg : String)
  | valueError (msg : String)
  | usageError (msg : String)
  deriving DecidableEq

def isUsageError : Except PyError (SessionState × (String × String)) → Bool
  | .error (.usageError _) => true
  | _ => false

/-- `formats.py` is not among the sources. Modelled from the spec:
`CODETRACER_FORMAT` is `binary|json` (§6), so the supported set is
`{"binary", "json"}` and normalization is the identity on them. -/
def SUPPORTED_FORMATS : List String := ["binary", "json"]

def normalizeFormat (v : String) : String := v

def isSupported (v : String) : Bool := SUPPORTED_FORMATS.contains v

/-- `session.start`: the already-active guard runs first and raises the
builtin `RuntimeError` synchronously; then the trace path and format are
validated; finally `_start_backend` (modelled from the spec: it switches
the backend's tracing flag on) runs and `_active_session` is set. -/
def start (fs : Fs) (st : SessionState) (path format : String) :
    Except PyError (SessionState × (String × String)) :=
  if st.backend.tracing then
    .error (.runtimeError "tracing already active")
  else if fs.pathExists path ∧ ¬ fs.isDir path then
    .error (.valueError "trace path exists and is not a directory")
  else if ¬ isSupported (normalizeFormat format) then
    .error (.valueError "unsupported trace format")
  else
    let session := (path, normalizeFormat format)
    .ok ({ backend := { tracing := true }, activeSession := some session },
      session)

end Session

namespace CliMain

/-!
Embedding of the exit-code logic of
`codetracer_python_recorder/__main__.py` (`main`). Note: the repository's
own tests (`tests/python/unit/test_cli.py`, imports
`codetracer_python_recorder.cli`, and `tests/python/test_exit_payloads.py`)
exercise a newer CLI with `--trace-dir` and `--propagate-script-exit`
options whose module `cli.py` is not among the sources; the `__main__.py`
that is present recognizes only `--codetracer-*` options and always
propagates the script's `SystemExit` code.
-/

/-- Filesystem view used for the `Path(unknown[0]).exists()` check. -/
structure Fs : Type where
  pathExists : String → Bool

/-- Outcome of `runpy.run_path` on the target script. -/
inductive ScriptOutcome : Type
  | completed
  | systemExit (code : Option Int)
  deriving DecidableEq

/-- `argparse` flag options of the `__main__.py` parser. -/
def knownFlagOpts : List String :=
  ["--codetracer-require-trace", "--codetracer-keep-partial-trace",
   "--codetracer-json-errors"]

/-- `argparse` value-taking options of the `__main__.py` parser. -/
def knownValueOpts : List String :=
  ["--codetracer-trace", "--codetracer-format",
   "--codetracer-on-recorder-error", "--codetracer-log-level",
   "--codetracer-log-file"]

/-- The `unknown` list of `parser.parse_known_args(argv)`: recognized
options (and their values) are consumed, everything else is left
(argparse prefix abbreviations are not modelled; no input below uses
them). -/
def collectUnknown : List String → List String
  | [] => []
  | t :: rest =>
      if knownFlagOpts.contains t then collectUnknown rest
      else if knownValueOpts.contains t then
        match rest with
        | [] => []
        | _ :: rest' => collectUnknown rest'
      else if knownValueOpts.any (fun o => strPre (o ++ "=") t) then
        collectUnknown rest
      else t :: collectUnknown rest
where
  /-- `t.startswith(o ++ "=")`. -/
  strPre (pre t : String) : Bool := List.isPrefixOf pre.toList t.toList

/-- The return value of `main(argv)`: `.error ()` stands for an exception
(e.g. a recorder error out of `start`) propagating out of `main`
uncaught. On a successful parse the script runs; `SystemExit` is caught
and its integer code returned (`1` for a non-integer code), any other
completion returns `0`. -/
def mainModel (fs : Fs) (argv : List String) (startFails : Bool)
    (outcome : ScriptOutcome) : Except Unit Int :=
  let unknown := collectUnknown argv
  match unknown with
  | [] => .ok 2
  | scriptTok :: _ =>
      if ¬ fs.pathExists scriptTok then .ok 2
      else if startFails then .error ()
      else
        match outcome with
        | .completed => .ok 0
        | .systemExit (some c) => .ok c
        | .systemExit Option.none => .ok 1

end CliMain

namespace IoLedger

/-!
Embedding of the ledger + FD-mirror algorithm of
`design-docs/prototypes/io_capture_ledger_mirror_prototype.py`
(`Ledger.subtract_from_chunk`, `ProxyStdout.write`, `FdMirror.run`).
Bytes are `List Nat`. The run model below is the single-threaded
semantics: the mirror drains each pipe write before the next write
happens (the pipe preserves write order; cross-thread interleaving is
outside a shallow embedding).
-/

abbrev Bytes := List Nat

/-- `LedgerEntry`. -/
structure LedgerEntry : Type where
  seq : Nat
  data : Bytes
  offset : Nat
  deriving DecidableEq

/-- `LedgerEntry.remaining`. -/
def LedgerEntry.remaining (e : LedgerEntry) : Bytes := e.data.drop e.offset

/-- `LedgerEntry.consume(size)`: the returned chunk and the advanced
entry. -/
def LedgerEntry.consume (e : LedgerEntry) (size : Nat) : Bytes × LedgerEntry :=
  ((e.data.drop e.offset).take size, { e with offset := e.offset + size })

/-- `LedgerEntry.is_spent`. -/
def LedgerEntry.isSpent (e : LedgerEntry) : Bool := e.data.length ≤ e.offset

/-- The `if not remaining: popleft; continue` arm of the subtract loop:
spent entries at the head are discarded before a byte is examined. -/
def dropSpent : List LedgerEntry → List LedgerEntry
  | [] => []
  | e :: es => if e.remaining = [] then dropSpent es else e :: es

/-- The walk of `Ledger.subtract_from_chunk` (cursor `idx` made
structural on the remaining chunk). Returns
`(leftover, matched, entries)`. -/
def subtractLoop : Bytes → List LedgerEntry →
    Bytes × List (Nat × Bytes) × List LedgerEntry
  | [], entries => ([], [], entries)
  | b :: rest, entries =>
      match dropSpent entries with
      | [] => (b :: rest, [], [])
      | e :: es =>
          let rem := e.remaining
          if hmis : ¬ rem.head? = some b then
            -- native byte preceding the next ledger entry
            let (leftover, matched, entries) := subtractLoop rest (e :: es)
            (b :: leftover, matched, entries)
          else if hfull : rem.isPrefixOf (b :: rest) then
            -- full match inside the chunk
            let (consumed, e') := e.consume rem.length
            let entries' := if e'.isSpent then es else e' :: es
            let (leftover, matched, entries) :=
              subtractLoop ((b :: rest).drop rem.length) entries'
            (leftover, (e.seq, consumed) :: matched, entries)
          else if (b :: rest).isPrefixOf rem then
            -- partial match at the end of the chunk
            let (consumed, e') := e.consume (b :: rest).length
            ([], [(e.seq, consumed)], if e'.isSpent then es else e' :: es)
          else
            -- first byte matches but the entry diverges: native output
            let (leftover, matched, entries) := subtractLoop rest (e :: es)
            (b :: leftover, matched, entries)
termination_by chunk _ => chunk.length
decreasing_by
  · simp
  · have hlen : rem.length ≠ 0 := by
      intro h0
      rw [List.length_eq_zero] at h0
      simp [h0] at hmis
    have hrem : List.length e.remaining = rem.length := rfl
    simp only [List.length_drop, List.length_cons]
    omega
  · simp

/-- `Ledger.subtract_from_chunk` (the empty-chunk early return included). -/
def subtractFromChunk (chunk : Bytes) (entries : List LedgerEntry) :
    Bytes × List (Nat × Bytes) × List LedgerEntry :=
  match chunk with
  | [] => ([], [], entries)
  | b :: rest => subtractLoop (b :: rest) entries

/-- One observable write of the traced program. -/
inductive WriteOp : Type
  | proxy (text : Bytes)
  | native (data : Bytes)

/-- Ledger + recorded `Event.content` payloads (in emission order). -/
structure IoState : Type where
  ledger : List LedgerEntry
  seqCounter : Nat
  contents : List Bytes

/-- One write and the synchronous mirror drain of its pipe bytes:
a proxy write pushes a ledger entry, records its proxy event and writes
to the pipe (`ProxyStdout.write`; empty text returns before recording);
a native write only writes to the pipe. The mirror reads the chunk,
subtracts the ledger, and records the leftover when non-empty
(`FdMirror.run`). -/
def stepWrite (st : IoState) : WriteOp → IoState
  | .proxy t =>
      if t = [] then st
      else
        let entry : LedgerEntry := ⟨st.seqCounter, t, 0⟩
        let ledger := st.ledger ++ [entry]
        let contents := st.contents ++ [t]
        let (leftover, _, ledger) := subtractFromChunk t ledger
        { ledger := ledger, seqCounter := st.seqCounter + 1,
          contents := contents ++ (if leftover = [] then [] else [leftover]) }
  | .native d =>
      if d = [] then st
      else
        let (leftover, _, ledger) := subtractFromChunk d st.ledger
        { st with ledger := ledger,
                  contents := st.contents ++
                    (if leftover = [] then [] else [leftover]) }

def runWrites : IoState → List WriteOp → IoState
  | st, [] => st
  | st, op :: rest => runWrites (stepWrite st op) rest

/-- The bytes `B` the program wrote, in order. -/
def writtenBytes : List WriteOp → Bytes
  | [] => []
  | .proxy t :: rest => t ++ writtenBytes rest
  | .native d :: rest => d ++ writtenBytes rest

def concatAll : List Bytes → Bytes
  | [] => []
  | c :: rest => c ++ concatAll rest

def initIo : IoState := ⟨[], 0, []⟩

end IoLedger

namespace TraceBalance

/-- A call adds one and a return subtracts one from the running count. -/
def balInt (events : List JsonEvent) : Int :=
  (countKey "Call" events : Int) - (countKey "Return" events : Int)

theorem countKey_cons (k : String) (e : JsonEvent) (rest : List JsonEvent) :
    countKey k (e :: rest) =
      (if e.hasKey k then 1 else 0) + countKey k rest := by
  by_cases h : e.hasKey k <;> simp [countKey, List.filter, h] <;> omega

theorem countKey_nil (k : String) : countKey k [] = 0 := rfl



/-- With a first-negative index already recorded, the loop only finishes
the counts. -/
theorem summarizeLoop_some :
    ∀ (events : List JsonEvent) (idx calls returns : Nat) (active : Int)
      (j : Nat),
      (∀ e ∈ events, ¬(e.hasKey "Call" ∧ e.hasKey "Return")) →
      summarizeLoop events idx calls returns active (some j) =
        .ok ⟨calls + countKey "Call" events,
             returns + countKey "Return" events, some j⟩
  | [], idx, calls, returns, active, j, _ => by
      simp [summarizeLoop, countKey_nil]
  | e :: rest, idx, calls, returns, active, j, hno => by
      have hni : ¬(e.hasKey "Call" ∧ e.hasKey "Return") := hno e (by simp)
      have hrest : ∀ x ∈ rest, ¬(x.hasKey "Call" ∧ x.hasKey "Return") :=
        fun x hx => hno x (by simp [hx])
      by_cases hc : e.hasKey "Call" <;> by_cases hr : e.hasKey "Return"
      · exact absurd ⟨hc, hr⟩ hni
      · rw [summarizeLoop]
        simp only [hc, hr]
        simp only [Bool.false_eq_true, true_and, if_false, if_true, and_true,
          ite_true, ite_false, false_and, reduceCtorEq, and_false]
        rw [summarizeLoop_some rest (idx + 1) (calls + 1) returns (active + 1)
          j hrest]
        simp [countKey_cons, hc, hr, TraceBalanceResult.mk.injEq]
        omega
      · rw [summarizeLoop]
        simp only [hc, hr]
        simp only [Bool.false_eq_true, true_and, if_false, if_true, and_true,
          ite_true, ite_false, false_and, reduceCtorEq, and_false]
        rw [summarizeLoop_some rest (idx + 1) calls (returns + 1) (active - 1)
          j hrest]
        simp [countKey_cons, hc, hr, TraceBalanceResult.mk.injEq]
        omega
      · rw [summarizeLoop]
        simp only [hc, hr]
        simp only [Bool.false_eq_true, true_and, if_false, if_true, and_true,
          ite_true, ite_false, false_and, reduceCtorEq, and_false]
        rw [summarizeLoop_some rest (idx + 1) calls returns active j hrest]
        simp [countKey_cons, hc, hr, TraceBalanceResult.mk.injEq]

/-- The loop, started with no recorded first-negative index and a
non-negative running count, computes the two counts and the
first-negative index described by the claim. -/
theorem summarizeLoop_ok :
    ∀ (events : List JsonEvent) (idx calls returns : Nat) (active : Int),
      (∀ e ∈ events, ¬(e.hasKey "Call" ∧ e.hasKey "Return")) →
      0 ≤ active →
      summarizeLoop events idx calls returns active Option.none =
        .ok ⟨calls + countKey "Call" events,
             returns + countKey "Return" events,
             specFirstNegAux events active idx⟩
  | [], idx, calls, returns, active, _, _ => by
      simp [summarizeLoop, countKey_nil, specFirstNegAux]
  | e :: rest, idx, calls, returns, active, hno, ha => by
      have hni : ¬(e.hasKey "Call" ∧ e.hasKey "Return") := hno e (by simp)
      have hrest : ∀ x ∈ rest, ¬(x.hasKey "Call" ∧ x.hasKey "Return") :=
        fun x hx => hno x (by simp [hx])
      by_cases hc : e.hasKey "Call" <;> by_cases hr : e.hasKey "Return"
      · exact absurd ⟨hc, hr⟩ hni
      · -- call only: the running count rises and stays non-negative
        rw [summarizeLoop]
        simp only [hc, hr]
        simp only [Bool.false_eq_true, true_and, if_false, if_true, and_true,
          ite_true, ite_false, false_and, reduceCtorEq, and_false]
        rw [summarizeLoop_ok rest (idx + 1) (calls + 1) returns (active + 1)
          hrest (by omega)]
        rw [show specFirstNegAux (e :: rest) active idx =
            specFirstNegAux rest (active + 1) (idx + 1) by
          rw [specFirstNegAux]
          simp only [hc, hr]
          simp only [Bool.false_eq_true, if_true, if_false, ite_true,
            ite_false]
          rw [if_neg (by omega : ¬(active + 1 - 0 < 0))]
          rw [show active + 1 - 0 = active + 1 by omega]]
        simp [countKey_cons, hc, hr, TraceBalanceResult.mk.injEq]
        omega
      · -- return only: the count may dip below zero at this event
        rw [summarizeLoop]
        simp only [hc, hr]
        simp only [Bool.false_eq_true, true_and, if_false, if_true, and_true,
          ite_true, ite_false, false_and, reduceCtorEq, and_false]
        by_cases hneg : active - 1 < 0
        · rw [if_pos hneg]
          rw [summarizeLoop_some rest (idx + 1) calls (returns + 1)
            (active - 1) idx hrest]
          rw [show specFirstNegAux (e :: rest) active idx = some idx by
            rw [specFirstNegAux]
            simp only [hc, hr]
            simp only [Bool.false_eq_true, if_true, if_false, ite_true,
              ite_false]
            rw [if_pos (by omega : active + 0 - 1 < 0)]]
          simp [countKey_cons, hc, hr, TraceBalanceResult.mk.injEq]
          omega
        · rw [if_neg (by simp [hneg])]
          rw [summarizeLoop_ok rest (idx + 1) calls (returns + 1) (active - 1)
            hrest (by omega)]
          rw [show specFirstNegAux (e :: rest) active idx =
              specFirstNegAux rest (active - 1) (idx + 1) by
            rw [specFirstNegAux]
            simp only [hc, hr]
            simp only [Bool.false_eq_true, if_true, if_false, ite_true,
              ite_false]
            rw [if_neg (by omega : ¬(active + 0 - 1 < 0))]
            rw [show active + 0 - 1 = active - 1 by omega]]
          simp [countKey_cons, hc, hr, TraceBalanceResult.mk.injEq]
          omega
      · -- neither key
        rw [summarizeLoop]
        simp only [hc, hr]
        simp only [Bool.false_eq_true, true_and, if_false, if_true, and_true,
          ite_true, ite_false, false_and, reduceCtorEq, and_false]
        rw [summarizeLoop_ok rest (idx + 1) calls returns active hrest ha]
        rw [show specFirstNegAux (e :: rest) active idx =
            specFirstNegAux rest active (idx + 1) by
          rw [specFirstNegAux]
          simp only [hc, hr]
          simp only [Bool.false_eq_true, if_true, if_false, ite_true,
            ite_false]
          rw [if_neg (by omega : ¬(active + 0 - 0 < 0))]
          rw [show active + 0 - 0 = active by omega]]
        simp [countKey_cons, hc, hr, TraceBalanceResult.mk.injEq]

theorem balInt_cons (e : JsonEvent) (p : List JsonEvent) :
    balInt (e :: p) =
      ((if e.hasKey "Call" then 1 else 0) -
        (if e.hasKey "Return" then 1 else 0)) + balInt p := by
  by_cases hc : e.hasKey "Call" <;> by_cases hr : e.hasKey "Return" <;>
    simp [balInt, countKey_cons, hc, hr] <;> omega

/-- The first-negative scan returns `none` exactly when every non-empty
prefix keeps the running count non-negative. -/
theorem specFirstNegAux_none_iff :
    ∀ (events : List JsonEvent) (a : Int) (idx : Nat),
      specFirstNegAux events a idx = Option.none ↔
        ∀ p, p <+: events → p ≠ [] → 0 ≤ a + balInt p
  | [], a, idx => by
      simp only [specFirstNegAux]
      constructor
      · intro _ p hp hne
        exact absurd (List.prefix_nil.mp hp) hne
      · intro _
        trivial
  | e :: rest, a, idx => by
      rw [specFirstNegAux]
      set run := a + ((if e.hasKey "Call" then 1 else 0) -
        (if e.hasKey "Return" then 1 else 0)) with hrun
      rw [show a + (if e.hasKey "Call" then (1 : Int) else 0) -
          (if e.hasKey "Return" then (1 : Int) else 0) = run by rw [hrun]; ring]
      by_cases hneg : run < 0
      · rw [if_pos hneg]
        simp only [reduceCtorEq, false_iff]
        intro hall
        have h1 := hall [e] (by simp) (by simp)
        rw [balInt_cons] at h1
        simp [balInt, countKey_nil] at h1
        omega
      · rw [if_neg hneg]
        rw [specFirstNegAux_none_iff rest run (idx + 1)]
        constructor
        · intro hall p hp hne
          match p, hp, hne with
          | q :: p', hp, _ =>
              have hq := (List.cons_prefix_cons).mp hp
              rw [hq.1, balInt_cons]
              rw [show a + (((if e.hasKey "Call" then (1:Int) else 0) -
                (if e.hasKey "Return" then 1 else 0)) + balInt p') =
                run + balInt p' by rw [hrun]; ring]
              by_cases hpe : p' = []
              · rw [hpe]
                simp only [balInt, countKey_nil]
                omega
              · exact hall p' hq.2 hpe
        · intro hall p' hp' hne
          have h2 := hall (e :: p') (List.cons_prefix_cons.mpr ⟨rfl, hp'⟩)
            (by simp)
          rw [balInt_cons] at h2
          rw [show a + (((if e.hasKey "Call" then (1:Int) else 0) -
            (if e.hasKey "Return" then 1 else 0)) + balInt p') =
            run + balInt p' by rw [hrun]; ring] at h2
          exact h2

/-- An event carrying both payloads makes the loop raise, whatever the
accumulated state. -/
theorem summarizeLoop_error :
    ∀ (events : List JsonEvent) (idx calls returns : Nat) (active : Int)
      (firstNeg : Option Nat),
      (∃ e ∈ events, e.hasKey "Call" ∧ e.hasKey "Return") →
      isErr (summarizeLoop events idx calls returns active firstNeg) = true
  | [], _, _, _, _, _, h => by simp at h
  | e :: rest, idx, calls, returns, active, firstNeg, h => by
      by_cases hni : (e.hasKey "Call" ∧ e.hasKey "Return")
      · rw [summarizeLoop, if_pos hni]
        rfl
      · rw [summarizeLoop, if_neg hni]
        obtain ⟨x, hx, hb⟩ := h
        have hxr : x ∈ rest := by
          rcases List.mem_cons.mp hx with h' | h'
          · exact absurd (h' ▸ hb) hni
          · exact h'
        exact summarizeLoop_error rest _ _ _ _ _ ⟨x, hxr, hb⟩

/-- A two-event balanced demo stream and a stream with an event carrying
both payloads; concrete inputs for the witness below. -/
def c10demo : List JsonEvent := [⟨["Call"]⟩, ⟨["Return"]⟩]

def c10bad : List JsonEvent := [⟨["Call", "Return"]⟩]

end TraceBalance

/-- C10: for every finite sequence of JSON event objects in which no
object carries both a `"Call"` and a `"Return"` key,
`summarize_trace_balance` returns the `Call`/`Return` counts together
with the index of the first event at which the running call-minus-return
count goes negative (`None` if there is none), and its `is_balanced` is
`true` exactly when the two counts agree and no prefix of the sequence
contains more `"Return"` objects than `"Call"` objects; if some object
carries both keys it raises `TraceBalanceError` instead. -/
theorem c10_summarize_trace_balance :
    (∀ events : List TraceBalance.JsonEvent,
      (∀ e ∈ events, ¬(e.hasKey "Call" ∧ e.hasKey "Return")) →
      TraceBalance.summarizeTraceBalance events =
        .ok ⟨TraceBalance.countKey "Call" events,
             TraceBalance.countKey "Return" events,
             TraceBalance.specFirstNeg events⟩ ∧
      (TraceBalance.TraceBalanceResult.is_balanced
          ⟨TraceBalance.countKey "Call" events,
           TraceBalance.countKey "Return" events,
           TraceBalance.specFirstNeg events⟩ = true ↔
        TraceBalance.countKey "Call" events =
          TraceBalance.countKey "Return" events ∧
        ∀ p, p <+: events →
          TraceBalance.countKey "Return" p ≤
            TraceBalance.countKey "Call" p)) ∧
    (∀ events : List TraceBalance.JsonEvent,
      (∃ e ∈ events, e.hasKey "Call" ∧ e.hasKey "Return") →
      TraceBalance.isErr (TraceBalance.summarizeTraceBalance events) = true) := by
  constructor
  · intro events hno
    constructor
    · rw [TraceBalance.summarizeTraceBalance,
        TraceBalance.summarizeLoop_ok events 0 0 0 0 hno le_rfl]
      simp [TraceBalance.specFirstNeg]
    · simp only [TraceBalance.TraceBalanceResult.is_balanced,
        Bool.and_eq_true, beq_iff_eq]
      constructor
      · intro ⟨hcnt, hfn⟩
        refine ⟨hcnt, ?_⟩
        intro p hp
        have h1 := (TraceBalance.specFirstNegAux_none_iff events 0 0).mp
          (by simpa [TraceBalance.specFirstNeg] using hfn) p hp
        by_cases hpe : p = []
        · rw [hpe, TraceBalance.countKey_nil, TraceBalance.countKey_nil]
        · have := h1 hpe
          simp only [TraceBalance.balInt] at this
          omega
      · intro ⟨hcnt, hpre⟩
        refine ⟨hcnt, ?_⟩
        have : TraceBalance.specFirstNeg events = Option.none := by
          rw [TraceBalance.specFirstNeg,
            TraceBalance.specFirstNegAux_none_iff events 0 0]
          intro p hp _
          have := hpre p hp
          simp only [TraceBalance.balInt]
          omega
        simp [this]
  · intro events h
    exact TraceBalance.summarizeLoop_error events 0 0 0 0 Option.none h

/-- Witness for C10 at concrete inputs: a balanced two-event stream is
summarized as balanced, and a stream whose single event carries both
payloads raises. -/
theorem c10_summarize_trace_balance_witness :
    TraceBalance.summarizeTraceBalance TraceBalance.c10demo =
      .ok ⟨1, 1, Option.none⟩ ∧
    TraceBalance.isErr
      (TraceBalance.summarizeTraceBalance TraceBalance.c10bad) = true := by
  constructor
  · have h := (c10_summarize_trace_balance.1 TraceBalance.c10demo
      (by decide)).1
    exact h.trans (by rfl)
  · exact c10_summarize_trace_balance.2 TraceBalance.c10bad (by decide)

namespace Session

/-- A filesystem on which the destination is a fresh directory path, and
a state with a live session: concrete inputs for the C8 theorems. -/
def demoFs : Fs := ⟨fun _ => false, fun _ => false⟩

def activeState : SessionState :=
  ⟨⟨true⟩, some ("trace-out", "json")⟩

end Session

/-- C8 counterexample: with a session already active, `start` raises the
builtin `RuntimeError("tracing already active")` - not the structured
`UsageError` of the claim. -/
theorem c8_start_usage_error_counterexample :
    Session.start Session.demoFs Session.activeState "other-dir" "json" =
      Except.error (Session.PyError.runtimeError "tracing already active") ∧
    Session.isUsageError
      (Session.start Session.demoFs Session.activeState "other-dir" "json") =
      false := by
  constructor <;> rfl

/-- C8 as amended: calling `start` while a session is active fails
synchronously with `RuntimeError("tracing already active")` (raised by the
guard before anything is mutated, so no new state is produced and the
active session is untouched), whatever the filesystem, path and format. -/
theorem c8_start_second_session_fails :
    ∀ (fs : Session.Fs) (st : Session.SessionState) (path format : String),
      st.backend.tracing = true →
      Session.start fs st path format =
        Except.error (Session.PyError.runtimeError "tracing already active") := by
  intro fs st path format h
  rw [Session.start, if_pos h]

/-- Witness for the amended C8 at a concrete active state. -/
theorem c8_start_second_session_fails_witness :
    Session.activeState.backend.tracing = true ∧
    Session.start Session.demoFs Session.activeState "trace-out" "binary" =
      Except.error (Session.PyError.runtimeError "tracing already active") :=
  ⟨rfl, c8_start_second_session_fails Session.demoFs Session.activeState
    "trace-out" "binary" rfl⟩

namespace CliMain

/-- Filesystem for the C9 evaluation: only `script.py` exists. -/
def demoFs : Fs := ⟨fun p => p == "script.py"⟩

end CliMain

/-- C9 evaluation at the failing inputs: the `__main__.py` under the
sources treats `--trace-dir` (used by the repository's own
`tests/python/test_exit_payloads.py`) as an unknown token and returns the
argument-error code `2`; without any flag it always returns the script's
`SystemExit` code (`3` here) instead of the claimed default `0`; and
`--propagate-script-exit` itself is an unknown token, hence an argument
error rather than an accepted option. -/
theorem c9_exit_code_evaluation :
    CliMain.mainModel CliMain.demoFs
        ["--trace-dir", "out", "--format", "json", "script.py"] false
        (.systemExit (some 3)) = Except.ok 2 ∧
    CliMain.mainModel CliMain.demoFs ["script.py"] false
        (.systemExit (some 3)) = Except.ok 3 ∧
    CliMain.mainModel CliMain.demoFs
        ["--propagate-script-exit", "script.py"] false
        (.systemExit (some 5)) = Except.ok 2 ∧
    CliMain.mainModel CliMain.demoFs ["script.py"] false .completed =
      Except.ok 0 ∧
    CliMain.mainModel CliMain.demoFs [] false .completed = Except.ok 2 := by
  refine ⟨rfl, rfl, rfl, rfl, rfl⟩

namespace IoLedger

/-- With an empty ledger the whole chunk is native leftover. -/
theorem subtractFromChunk_nil_entries (c : Bytes) :
    subtractFromChunk c [] = (c, [], []) := by
  cases c with
  | nil => rfl
  | cons b rest =>
      rw [subtractFromChunk, subtractLoop]
      simp [dropSpent]

/-- A chunk that is exactly the single ledger entry's bytes is consumed
in full: no leftover, the entry spent and removed. -/
theorem subtractFromChunk_exact (n b : Nat) (rest : Bytes) :
    subtractFromChunk (b :: rest) [⟨n, b :: rest, 0⟩] =
      ([], [(n, b :: rest)], []) := by
  rw [subtractFromChunk, subtractLoop]
  have hrem : (⟨n, b :: rest, 0⟩ : LedgerEntry).remaining = b :: rest := rfl
  simp only [dropSpent, hrem]
  rw [if_neg (by simp : ¬(b :: rest = []))]
  simp only [hrem]
  rw [dif_neg (by simp)]
  rw [dif_pos (by simp [List.isPrefixOf_iff_prefix])]
  simp [LedgerEntry.consume, LedgerEntry.isSpent, List.take_length,
    List.drop_length, subtractLoop]

theorem concatAll_append (a b : List Bytes) :
    concatAll (a ++ b) = concatAll a ++ concatAll b := by
  induction a with
  | nil => simp [concatAll]
  | cons c rest ih => simp [concatAll, ih]

/-- The run invariant: starting from an empty ledger, the ledger is empty
again after every write (each proxy entry is matched in full by its own
pipe bytes), and the recorded contents extend by exactly the written
bytes. -/
theorem runWrites_contents :
    ∀ (ops : List WriteOp) (st : IoState), st.ledger = [] →
      (runWrites st ops).ledger = [] ∧
      concatAll (runWrites st ops).contents =
        concatAll st.contents ++ writtenBytes ops
  | [], st, h => ⟨h, by simp [runWrites, writtenBytes]⟩
  | .proxy t :: rest, st, h => by
      by_cases ht : t = []
      · rw [show runWrites st (.proxy t :: rest) =
            runWrites st rest by rw [runWrites, stepWrite, if_pos ht]]
        have ih := runWrites_contents rest st h
        refine ⟨ih.1, ?_⟩
        rw [ih.2, writtenBytes, ht]
        simp
      · obtain ⟨b, r, rfl⟩ : ∃ b r, t = b :: r := by
          cases t with
          | nil => exact absurd rfl ht
          | cons b r => exact ⟨b, r, rfl⟩
        have hstep : stepWrite st (.proxy (b :: r)) =
            { ledger := [], seqCounter := st.seqCounter + 1,
              contents := st.contents ++ [b :: r] } := by
          rw [stepWrite, if_neg ht, h]
          simp only [List.nil_append, subtractFromChunk_exact]
          simp
        rw [show runWrites st (.proxy (b :: r) :: rest) =
            runWrites (stepWrite st (.proxy (b :: r))) rest from rfl, hstep]
        have ih := runWrites_contents rest
          { ledger := [], seqCounter := st.seqCounter + 1,
            contents := st.contents ++ [b :: r] } rfl
        refine ⟨ih.1, ?_⟩
        rw [ih.2, concatAll_append, writtenBytes]
        simp [concatAll]
  | .native d :: rest, st, h => by
      by_cases hd : d = []
      · rw [show runWrites st (.native d :: rest) =
            runWrites st rest by rw [runWrites, stepWrite, if_pos hd]]
        have ih := runWrites_contents rest st h
        refine ⟨ih.1, ?_⟩
        rw [ih.2, writtenBytes, hd]
        simp
      · have hstep : stepWrite st (.native d) =
            { ledger := [], seqCounter := st.seqCounter,
              contents := st.contents ++ [d] } := by
          rw [stepWrite, if_neg hd, h]
          simp only [subtractFromChunk_nil_entries]
          simp [hd]
        rw [show runWrites st (.native d :: rest) =
            runWrites (stepWrite st (.native d)) rest from rfl, hstep]
        have ih := runWrites_contents rest
          { ledger := [], seqCounter := st.seqCounter,
            contents := st.contents ++ [d] } rfl
        refine ⟨ih.1, ?_⟩
        rw [ih.2, concatAll_append, writtenBytes]
        simp [concatAll]

end IoLedger

/-- C2: for any program performing any combination of high-level proxy
writes and raw file-descriptor writes of bytes `B` to stdout, the
concatenation of the recorded I/O event content payloads equals `B`:
proxy bytes are recorded once by the proxy and subtracted from the
mirror by the ledger (never duplicated), and native bytes survive the
subtraction as mirror events (never lost). The run model is the
single-threaded semantics of the prototype: the mirror drains each pipe
write before the next write occurs. -/
theorem c2_io_round_trip (ops : List IoLedger.WriteOp) :
    IoLedger.concatAll (IoLedger.runWrites IoLedger.initIo ops).contents =
      IoLedger.writtenBytes ops := by
  have h := IoLedger.runWrites_contents ops IoLedger.initIo rfl
  have h2 := h.2
  rw [show IoLedger.initIo.contents = [] from rfl] at h2
  simpa [IoLedger.concatAll] using h2

namespace TracePy

theorem countCall_append (a b : List Event) :
    countCall (a ++ b) = countCall a + countCall b := by
  simp [countCall, List.filter_append]

theorem countRet_append (a b : List Event) :
    countRet (a ++ b) = countRet a + countRet b := by
  simp [countRet, List.filter_append]

/-- An operation that emits no `Call` and no `Return`, only appends to
the stream, and leaves the process paths alone. -/
def quiet (s s' : TracerState) : Prop :=
  s'.cwd = s.cwd ∧ s'.programDir = s.programDir ∧
  ∃ Δ, s'.events = s.events ++ Δ ∧ countCall Δ = 0 ∧ countRet Δ = 0

theorem quiet_refl (s : TracerState) : quiet s s :=
  ⟨rfl, rfl, [], by simp, rfl, rfl⟩

theorem quiet_trans {s t u : TracerState} (h1 : quiet s t) (h2 : quiet t u) :
    quiet s u := by
  obtain ⟨hc1, hd1, Δ1, he1, hcc1, hcr1⟩ := h1
  obtain ⟨hc2, hd2, Δ2, he2, hcc2, hcr2⟩ := h2
  refine ⟨hc2.trans hc1, hd2.trans hd1, Δ1 ++ Δ2, ?_, ?_, ?_⟩
  · rw [he2, he1, List.append_assoc]
  · rw [countCall_append, hcc1, hcc2]
  · rw [countRet_append, hcr1, hcr2]

theorem quiet_emit (s : TracerState) (e : Event)
    (hc : countCall [e] = 0) (hr : countRet [e] = 0) :
    quiet s (emitE s e) :=
  ⟨rfl, rfl, [e], rfl, hc, hr⟩

theorem registerType_quiet (s : TracerState) (k : Nat) (n : String) :
    quiet s (registerType s k n).2 := by
  rw [registerType]
  cases lookupK n s.typesMap with
  | some id => exact quiet_refl s
  | none =>
      exact quiet_trans (s := s)
        ⟨rfl, rfl, [], by simp, rfl, rfl⟩ (quiet_emit _ _ rfl rfl)

theorem ensureType_quiet (s : TracerState) (k : Nat) (n : String) :
    quiet s (ensureType s k n).2 := by
  rw [ensureType]
  cases lookupK n s.typesMap with
  | some id => exact quiet_refl s
  | none => exact registerType_quiet s k n

theorem registerPath_quiet (s : TracerState) (p : String) :
    quiet s (registerPath s p).2 := by
  rw [registerPath]
  cases lookupK (if p ≠ "" then relpathM (abspathM s.cwd p) s.programDir
    else p) s.pathMap with
  | some id => exact quiet_refl s
  | none =>
      exact quiet_trans (s := s)
        ⟨rfl, rfl, [], by simp, rfl, rfl⟩ (quiet_emit _ _ rfl rfl)

theorem registerFunction_quiet (s : TracerState) (p : String) (l : Int)
    (n : String) : quiet s (registerFunction s p l n).2 := by
  rw [registerFunction]
  cases lookupK (p, l, n) s.functions with
  | some id => exact quiet_refl s
  | none =>
      refine quiet_trans (t := (registerPath
        { s with functions := s.functions ++ [((p, l, n), s.functions.length)] }
        p).2) ?_ (quiet_emit _ _ rfl rfl)
      exact quiet_trans (s := s)
        ⟨rfl, rfl, [], by simp, rfl, rfl⟩ (registerPath_quiet _ p)

theorem varId_quiet (s : TracerState) (n : String) :
    quiet s (varId s n).2 := by
  rw [varId]
  cases lookupK n s.varMap with
  | some id => exact quiet_refl s
  | none =>
      exact quiet_trans (s := s)
        ⟨rfl, rfl, [], by simp, rfl, rfl⟩ (quiet_emit _ _ rfl rfl)

theorem tracerValueF_quiet :
    ∀ fuel, (∀ s v, quiet s (tracerValueF fuel s v).2) ∧
      (∀ s l, quiet s (tracerValueListF fuel s l).2)
  | 0 => by
      constructor
      · intro s v
        cases v <;>
          first
            | exact quiet_refl s
            | exact ensureType_quiet s _ _
            | exact quiet_trans (ensureType_quiet s _ _)
                (quiet_trans (ensureType_quiet _ _ _) (ensureType_quiet _ _ _))
      · intro s l
        cases l <;> exact quiet_refl s
  | fuel + 1 => by
      have ih := tracerValueF_quiet fuel
      constructor
      · intro s v
        cases v <;>
          first
            | exact quiet_refl s
            | exact ensureType_quiet s _ _
            | exact quiet_trans (ensureType_quiet s _ _)
                (quiet_trans (ensureType_quiet _ _ _) (ensureType_quiet _ _ _))
            | exact quiet_trans (ensureType_quiet s _ _) (ih.2 _ _)
      · intro s l
        cases l with
        | nil => exact quiet_refl s
        | cons v rest =>
            exact quiet_trans (ih.1 s v) (ih.2 _ rest)

theorem tracerValue_quiet (s : TracerState) (v : PyVal) :
    quiet s (tracerValue s v).2 := (tracerValueF_quiet v.sz).1 s v

theorem captureLocals_quiet :
    ∀ (locals : List (String × PyVal)) (s : TracerState),
      quiet s (captureLocals s locals)
  | [], s => quiet_refl s
  | (name, val) :: rest, s => by
      rw [captureLocals]
      by_cases h1 : strStartsWith name "__"
      · rw [if_pos h1]
        exact captureLocals_quiet rest s
      · rw [if_neg h1]
        by_cases h2 : val.isFunc
        · rw [if_pos h2]
          exact captureLocals_quiet rest s
        · rw [if_neg h2]
          refine quiet_trans ?_ (captureLocals_quiet rest _)
          refine quiet_trans (varId_quiet s name) ?_
          refine quiet_trans (tracerValue_quiet _ val) ?_
          exact quiet_emit _ _ rfl rfl

theorem callArgs_quiet :
    ∀ (argNames : List String) (locals : List (String × PyVal))
      (s : TracerState), quiet s (callArgs s locals argNames).2
  | [], _, s => quiet_refl s
  | name :: rest, locals, s => by
      rw [callArgs]
      cases locals.lookup name with
      | some v =>
          refine quiet_trans (varId_quiet s name) ?_
          refine quiet_trans (tracerValue_quiet _ v) ?_
          exact callArgs_quiet rest locals _
      | none => exact callArgs_quiet rest locals s

theorem registerFunctionsInLocals_quiet (s : TracerState) (f : Frame) :
    quiet s (registerFunctionsInLocals s f) := by
  rw [registerFunctionsInLocals]
  generalize f.locals = ls
  induction ls generalizing s with
  | nil => exact quiet_refl s
  | cons nv rest ih =>
      rw [List.foldl_cons]
      obtain ⟨nm, v⟩ := nv
      cases v
      case func fn fl ff fd =>
        by_cases hl : fl = f.lineno
        · rw [show ((nm, PyVal.func fn fl ff fd).2 : PyVal) = .func fn fl ff fd
            from rfl]
          simp only [if_pos hl]
          exact quiet_trans (registerFunction_quiet s _ _ _) (ih _)
        · simp only [if_neg hl]
          exact ih s
      all_goals exact ih s

end TracePy

namespace TracePy

theorem prefix_append_cases {α : Type} :
    ∀ (l : List α) (p m : List α), p <+: l ++ m →
      p <+: l ∨ ∃ q, p = l ++ q ∧ q <+: m
  | [], p, m, h => .inr ⟨p, by simp, h⟩
  | a :: l, p, m, h => by
      cases p with
      | nil => exact .inl List.nil_prefix
      | cons b p' =>
          have hb := List.cons_prefix_cons.mp h
          rcases prefix_append_cases l p' m hb.2 with h' | ⟨q, hq1, hq2⟩
          · exact .inl (List.cons_prefix_cons.mpr ⟨hb.1, h'⟩)
          · refine .inr ⟨q, ?_, hq2⟩
            rw [hb.1, hq1]
            rfl

theorem countCall_prefix_le {p Δ : List Event} (h : p <+: Δ) :
    countCall p ≤ countCall Δ := by
  obtain ⟨t, ht⟩ := h
  rw [← ht, countCall_append]
  omega

theorem countRet_prefix_le {p Δ : List Event} (h : p <+: Δ) :
    countRet p ≤ countRet Δ := by
  obtain ⟨t, ht⟩ := h
  rw [← ht, countRet_append]
  omega

/-- At no prefix of the stream do `Return`s outnumber `Call`s. -/
def prefixBalanced (l : List Event) : Prop :=
  ∀ p, p <+: l → countRet p ≤ countCall p

/-- Appending a block with no `Return` events preserves prefix balance. -/
theorem prefixBalanced_ext {l Δ : List Event} (h : prefixBalanced l)
    (hb : countRet l ≤ countCall l) (hΔ : countRet Δ = 0) :
    prefixBalanced (l ++ Δ) := by
  intro p hp
  rcases prefix_append_cases l p Δ hp with h' | ⟨q, rfl, hq⟩
  · exact h p h'
  · rw [countRet_append, countCall_append]
    have h1 := countRet_prefix_le hq
    have h2 : (0 : Nat) ≤ countCall q := Nat.zero_le _
    omega

/-- Appending a block whose single `Return` is its last event preserves
prefix balance when the stream holds a strict call surplus. -/
theorem prefixBalanced_ret {l Δ : List Event} (v : Value)
    (h : prefixBalanced l) (hb : countRet l + 1 ≤ countCall l)
    (hΔ : countRet Δ = 0) :
    prefixBalanced (l ++ (Δ ++ [Event.ret v])) := by
  intro p hp
  rcases prefix_append_cases l p (Δ ++ [Event.ret v]) hp with h' | ⟨q, rfl, hq⟩
  · exact h p h'
  · rcases prefix_append_cases Δ q [Event.ret v] hq with h' | ⟨r, rfl, hr⟩
    · rw [countRet_append, countCall_append]
      have h1 := countRet_prefix_le h'
      omega
    · rw [countRet_append, countCall_append, countRet_append, countCall_append]
      have h1 := countRet_prefix_le hr
      have h2 : countRet [Event.ret v] = 1 := rfl
      have h3 : countRet r ≤ 1 := h2 ▸ h1
      omega

theorem handleLine_eq (s : TracerState) (f : Frame) :
    handleLine s f =
      captureLocals (registerFunctionsInLocals
        (emitE (registerPath s (abspathM s.cwd f.filename)).2
          (.step (registerPath s (abspathM s.cwd f.filename)).1 f.lineno)) f)
        f.locals := rfl

theorem handleCall_eq (s : TracerState) (f : Frame) :
    handleCall s f =
      emitE (callArgs (registerFunction s (abspathM s.cwd f.filename)
          f.firstlineno f.name).2 f.locals f.argNames).2
        (.call (registerFunction s (abspathM s.cwd f.filename)
          f.firstlineno f.name).1
          (callArgs (registerFunction s (abspathM s.cwd f.filename)
            f.firstlineno f.name).2 f.locals f.argNames).1) := rfl

/-- The tail of `handle_return` after the locals snapshot: return-value
variable id, encoded value, `Value` event, `Return` event. -/
def retTail (s2 : TracerState) (a : PyVal) : TracerState :=
  emitE (emitE (tracerValue (varId s2 "<return_value>").2 a).2
    (.valueE (varId s2 "<return_value>").1
      (tracerValue (varId s2 "<return_value>").2 a).1))
    (.ret (tracerValue (varId s2 "<return_value>").2 a).1)

theorem handleReturn_eq (s : TracerState) (f : Frame) (a : PyVal) :
    handleReturn s f a =
      retTail (captureLocals
        (emitE (registerPath s (abspathM s.cwd f.filename)).2
          (.step (registerPath s (abspathM s.cwd f.filename)).1 f.lineno))
        f.locals) a := rfl

theorem handleLine_quiet (s : TracerState) (f : Frame) :
    quiet s (handleLine s f) := by
  rw [handleLine_eq]
  have h1 := registerPath_quiet s (abspathM s.cwd f.filename)
  have h2 := quiet_emit (registerPath s (abspathM s.cwd f.filename)).2
    (.step (registerPath s (abspathM s.cwd f.filename)).1 f.lineno) rfl rfl
  have h3 := registerFunctionsInLocals_quiet
    (emitE (registerPath s (abspathM s.cwd f.filename)).2
      (.step (registerPath s (abspathM s.cwd f.filename)).1 f.lineno)) f
  have h4 := captureLocals_quiet f.locals
    (registerFunctionsInLocals
      (emitE (registerPath s (abspathM s.cwd f.filename)).2
        (.step (registerPath s (abspathM s.cwd f.filename)).1 f.lineno)) f)
  exact quiet_trans (quiet_trans (quiet_trans h1 h2) h3) h4

theorem interceptorWrite_quiet (s : TracerState) (t : String) :
    quiet s (interceptorWrite s t) := by
  rw [interceptorWrite]
  by_cases h : t ≠ "" ∧ t ≠ "\n"
  · rw [if_pos h]
    exact quiet_emit _ _ rfl rfl
  · rw [if_neg h]
    exact quiet_refl s

/-- `handle_call` appends a no-`Call`/no-`Return` block and then its one
`Call` event. -/
theorem handleCall_spec (s : TracerState) (f : Frame) :
    (handleCall s f).cwd = s.cwd ∧
    (handleCall s f).programDir = s.programDir ∧
    ∃ Δ fid args,
      (handleCall s f).events = s.events ++ (Δ ++ [.call fid args]) ∧
      countCall Δ = 0 ∧ countRet Δ = 0 := by
  rw [handleCall_eq]
  have h1 := registerFunction_quiet s (abspathM s.cwd f.filename)
    f.firstlineno f.name
  have h2 := callArgs_quiet f.argNames f.locals
    (registerFunction s (abspathM s.cwd f.filename) f.firstlineno f.name).2
  obtain ⟨hc, hd, Δ, he, hcc, hcr⟩ := quiet_trans h1 h2
  refine ⟨hc, hd, Δ,
    (registerFunction s (abspathM s.cwd f.filename) f.firstlineno f.name).1,
    (callArgs (registerFunction s (abspathM s.cwd f.filename) f.firstlineno
      f.name).2 f.locals f.argNames).1, ?_, hcc, hcr⟩
  rw [emitE]
  simp only [he]
  rw [List.append_assoc]

/-- `handle_return` appends a no-`Call`/no-`Return` block and then its
one `Return` event. -/
theorem retTail_spec (s2 : TracerState) (a : PyVal) :
    (retTail s2 a).cwd = s2.cwd ∧
    (retTail s2 a).programDir = s2.programDir ∧
    ∃ Δ v, (retTail s2 a).events = s2.events ++ (Δ ++ [.ret v]) ∧
      countCall Δ = 0 ∧ countRet Δ = 0 := by
  have h4 := varId_quiet s2 "<return_value>"
  have h5 := tracerValue_quiet (varId s2 "<return_value>").2 a
  have h6 := quiet_emit (tracerValue (varId s2 "<return_value>").2 a).2
    (.valueE (varId s2 "<return_value>").1
      (tracerValue (varId s2 "<return_value>").2 a).1) rfl rfl
  obtain ⟨hc, hd, Δ, he, hcc, hcr⟩ :=
    quiet_trans (quiet_trans h4 h5) h6
  refine ⟨hc, hd, Δ, (tracerValue (varId s2 "<return_value>").2 a).1,
    ?_, hcc, hcr⟩
  rw [retTail]
  rw [show (emitE (emitE (tracerValue (varId s2 "<return_value>").2 a).2
      (.valueE (varId s2 "<return_value>").1
        (tracerValue (varId s2 "<return_value>").2 a).1))
      (.ret (tracerValue (varId s2 "<return_value>").2 a).1)).events =
    (emitE (tracerValue (varId s2 "<return_value>").2 a).2
      (.valueE (varId s2 "<return_value>").1
        (tracerValue (varId s2 "<return_value>").2 a).1)).events ++
      [.ret (tracerValue (varId s2 "<return_value>").2 a).1] from rfl]
  rw [he, List.append_assoc]

theorem handleReturn_spec (s : TracerState) (f : Frame) (a : PyVal) :
    (handleReturn s f a).cwd = s.cwd ∧
    (handleReturn s f a).programDir = s.programDir ∧
    ∃ Δ v, (handleReturn s f a).events = s.events ++ (Δ ++ [.ret v]) ∧
      countCall Δ = 0 ∧ countRet Δ = 0 := by
  rw [handleReturn_eq]
  have hq2 : quiet s (captureLocals
      (emitE (registerPath s (abspathM s.cwd f.filename)).2
        (.step (registerPath s (abspathM s.cwd f.filename)).1 f.lineno))
      f.locals) := by
    have h1 := registerPath_quiet s (abspathM s.cwd f.filename)
    have h2 := quiet_emit (registerPath s (abspathM s.cwd f.filename)).2
      (.step (registerPath s (abspathM s.cwd f.filename)).1 f.lineno) rfl rfl
    have h3 := captureLocals_quiet f.locals
      (emitE (registerPath s (abspathM s.cwd f.filename)).2
        (.step (registerPath s (abspathM s.cwd f.filename)).1 f.lineno))
    exact quiet_trans (quiet_trans h1 h2) h3
  revert hq2
  generalize (captureLocals
      (emitE (registerPath s (abspathM s.cwd f.filename)).2
        (.step (registerPath s (abspathM s.cwd f.filename)).1 f.lineno))
      f.locals) = s2
  intro hq2
  obtain ⟨hcq, hdq, Δq, heq, hccq, hcrq⟩ := hq2
  obtain ⟨hc, hd, Δ, v, he, hcc, hcr⟩ := retTail_spec s2 a
  refine ⟨hc.trans hcq, hd.trans hdq, Δq ++ Δ, v, ?_, ?_, ?_⟩
  · rw [he, heq, List.append_assoc, List.append_assoc]
  · rw [countCall_append]
    omega
  · rw [countRet_append]
    omega

end TracePy

namespace TracePy

/-- Number of `call` callbacks that pass the
`filename.startswith(program_dir)` gate. -/
def passCalls (cwd dir : String) (cbs : List Callback) : Nat :=
  (cbs.filter fun cb => match cb with
    | .call f => strStartsWith (abspathM cwd f.filename) dir
    | _ => false).length

/-- Number of `return` callbacks that pass the gate. -/
def passRets (cwd dir : String) (cbs : List Callback) : Nat :=
  (cbs.filter fun cb => match cb with
    | .ret f _ => strStartsWith (abspathM cwd f.filename) dir
    | _ => false).length

theorem passCalls_write (cwd dir : String) (t : String)
    (rest : List Callback) :
    passCalls cwd dir (.write t :: rest) = passCalls cwd dir rest := by
  simp [passCalls, List.filter]

theorem passRets_write (cwd dir : String) (t : String)
    (rest : List Callback) :
    passRets cwd dir (.write t :: rest) = passRets cwd dir rest := by
  simp [passRets, List.filter]

theorem passCalls_line (cwd dir : String) (f : Frame)
    (rest : List Callback) :
    passCalls cwd dir (.line f :: rest) = passCalls cwd dir rest := by
  simp [passCalls, List.filter]

theorem passRets_line (cwd dir : String) (f : Frame)
    (rest : List Callback) :
    passRets cwd dir (.line f :: rest) = passRets cwd dir rest := by
  simp [passRets, List.filter]

theorem passCalls_call (cwd dir : String) (f : Frame)
    (rest : List Callback) :
    passCalls cwd dir (.call f :: rest) =
      (if strStartsWith (abspathM cwd f.filename) dir then 1 else 0) +
        passCalls cwd dir rest := by
  by_cases h : strStartsWith (abspathM cwd f.filename) dir <;>
    simp [passCalls, List.filter, h] <;> omega

theorem passRets_call (cwd dir : String) (f : Frame)
    (rest : List Callback) :
    passRets cwd dir (.call f :: rest) = passRets cwd dir rest := by
  simp [passRets, List.filter]

theorem passCalls_ret (cwd dir : String) (f : Frame) (a : PyVal)
    (rest : List Callback) :
    passCalls cwd dir (.ret f a :: rest) = passCalls cwd dir rest := by
  simp [passCalls, List.filter]

theorem passRets_ret (cwd dir : String) (f : Frame) (a : PyVal)
    (rest : List Callback) :
    passRets cwd dir (.ret f a :: rest) =
      (if strStartsWith (abspathM cwd f.filename) dir then 1 else 0) +
        passRets cwd dir rest := by
  by_cases h : strStartsWith (abspathM cwd f.filename) dir <;>
    simp [passRets, List.filter, h] <;> omega

theorem prefixBalanced_full {l : List Event} (h : prefixBalanced l) :
    countRet l ≤ countCall l := h l (List.prefix_refl l)

theorem prefixBalanced_of_noRet {l : List Event} (h : countRet l = 0) :
    prefixBalanced l := by
  intro p hp
  have := countRet_prefix_le hp
  omega

/-- The balance invariant carried through the callback loop: counts add
the gate-passing callback counts, and the stream stays prefix-balanced
as long as, at every callback prefix, the passing returns stay strictly
below the passing calls plus the current call surplus. -/
theorem runCallbacks_spec :
    ∀ (cbs : List Callback) (s : TracerState),
      (∀ p, p <+: cbs →
        passRets s.cwd s.programDir p + countRet s.events + 1 ≤
          passCalls s.cwd s.programDir p + countCall s.events) →
      prefixBalanced s.events →
      countCall (runCallbacks s cbs).events =
        countCall s.events + passCalls s.cwd s.programDir cbs ∧
      countRet (runCallbacks s cbs).events =
        countRet s.events + passRets s.cwd s.programDir cbs ∧
      prefixBalanced (runCallbacks s cbs).events
  | [], s, _, hbal => by
      refine ⟨?_, ?_, hbal⟩ <;> simp [runCallbacks, passCalls, passRets]
  | cb :: rest, s, hinv, hbal => by
      rw [show runCallbacks s (cb :: rest) =
        runCallbacks (stepCallback s cb) rest from rfl]
      have hic : ∀ p, p <+: rest → (cb :: p) <+: (cb :: rest) :=
        fun p hp => List.cons_prefix_cons.mpr ⟨rfl, hp⟩
      cases cb with
      | write t =>
          have hq : quiet s (stepCallback s (.write t)) :=
            interceptorWrite_quiet s t
          obtain ⟨hc, hd, Δ, he, hcc, hcr⟩ := hq
          have ih := runCallbacks_spec rest (stepCallback s (.write t))
            (by
              intro p hp
              have h0 := hinv (.write t :: p) (hic p hp)
              rw [passRets_write, passCalls_write] at h0
              rw [hc, hd, he, countRet_append, countCall_append, hcc, hcr]
              omega)
            (by
              rw [he]
              exact prefixBalanced_ext hbal (prefixBalanced_full hbal) hcr)
          rw [hc, hd, he] at ih
          refine ⟨?_, ?_, ih.2.2⟩
          · rw [ih.1, countCall_append, hcc, passCalls_write]
            omega
          · rw [ih.2.1, countRet_append, hcr, passRets_write]
            omega
      | line f =>
          have hq : quiet s (stepCallback s (.line f)) := by
            rw [show stepCallback s (.line f) =
              (if framePasses s f then handleLine s f else s) from rfl]
            by_cases hpass : framePasses s f
            · rw [if_pos hpass]
              exact handleLine_quiet s f
            · rw [if_neg hpass]
              exact quiet_refl s
          obtain ⟨hc, hd, Δ, he, hcc, hcr⟩ := hq
          have ih := runCallbacks_spec rest (stepCallback s (.line f))
            (by
              intro p hp
              have h0 := hinv (.line f :: p) (hic p hp)
              rw [passRets_line, passCalls_line] at h0
              rw [hc, hd, he, countRet_append, countCall_append, hcc, hcr]
              omega)
            (by
              rw [he]
              exact prefixBalanced_ext hbal (prefixBalanced_full hbal) hcr)
          rw [hc, hd, he] at ih
          refine ⟨?_, ?_, ih.2.2⟩
          · rw [ih.1, countCall_append, hcc, passCalls_line]
            omega
          · rw [ih.2.1, countRet_append, hcr, passRets_line]
            omega
      | call f =>
          by_cases hpass : framePasses s f
          · have hstep : stepCallback s (.call f) = handleCall s f := by
              rw [show stepCallback s (.call f) =
                (if framePasses s f then handleCall s f else s) from rfl,
                if_pos hpass]
            obtain ⟨hc, hd, Δ, fid, args, he, hcc, hcr⟩ := handleCall_spec s f
            have hccΔ : countCall (Δ ++ [Event.call fid args]) =
                countCall Δ + 1 := by
              rw [countCall_append]
              rfl
            have hcrΔ : countRet (Δ ++ [Event.call fid args]) = 0 := by
              rw [countRet_append, hcr]
              rfl
            have ih := runCallbacks_spec rest (stepCallback s (.call f))
              (by
                intro p hp
                have h0 := hinv (.call f :: p) (hic p hp)
                rw [passRets_call, passCalls_call,
                  if_pos (show strStartsWith (abspathM s.cwd f.filename)
                    s.programDir from hpass)] at h0
                rw [hstep, hc, hd, he, countRet_append, countCall_append,
                  hccΔ, hcrΔ, hcc]
                omega)
              (by
                rw [hstep, he]
                exact prefixBalanced_ext hbal (prefixBalanced_full hbal) hcrΔ)
            rw [hstep] at ih ⊢
            rw [hc, hd, he] at ih
            refine ⟨?_, ?_, ih.2.2⟩
            · rw [ih.1, countCall_append, hccΔ, hcc, passCalls_call,
                if_pos (show strStartsWith (abspathM s.cwd f.filename)
                  s.programDir from hpass)]
              omega
            · rw [ih.2.1, countRet_append, hcrΔ, passRets_call]
              omega
          · have hstep : stepCallback s (.call f) = s := by
              rw [show stepCallback s (.call f) =
                (if framePasses s f then handleCall s f else s) from rfl,
                if_neg hpass]
            have ih := runCallbacks_spec rest (stepCallback s (.call f))
              (by
                intro p hp
                have h0 := hinv (.call f :: p) (hic p hp)
                rw [passRets_call, passCalls_call,
                  if_neg (show ¬ strStartsWith (abspathM s.cwd f.filename)
                    s.programDir = true from hpass)] at h0
                rw [hstep]
                omega)
              (by rw [hstep]; exact hbal)
            rw [hstep] at ih ⊢
            refine ⟨?_, ?_, ih.2.2⟩
            · rw [ih.1, passCalls_call,
                if_neg (show ¬ strStartsWith (abspathM s.cwd f.filename)
                  s.programDir = true from hpass)]
              omega
            · rw [ih.2.1, passRets_call]
      | ret f a =>
          by_cases hpass : framePasses s f
          · have hstep : stepCallback s (.ret f a) = handleReturn s f a := by
              rw [show stepCallback s (.ret f a) =
                (if framePasses s f then handleReturn s f a else s) from rfl,
                if_pos hpass]
            obtain ⟨hc, hd, Δ, v, he, hcc, hcr⟩ := handleReturn_spec s f a
            have hccΔ : countCall (Δ ++ [Event.ret v]) = 0 := by
              rw [countCall_append, hcc]
              rfl
            have hcrΔ : countRet (Δ ++ [Event.ret v]) = countRet Δ + 1 := by
              rw [countRet_append]
              rfl
            have hslack : countRet s.events + 1 ≤ countCall s.events := by
              have h0 := hinv [.ret f a] ⟨rest, rfl⟩
              rw [passRets_ret, passCalls_ret,
                if_pos (show strStartsWith (abspathM s.cwd f.filename)
                  s.programDir from hpass)] at h0
              simp [passRets, passCalls, List.filter] at h0
              omega
            have ih := runCallbacks_spec rest (stepCallback s (.ret f a))
              (by
                intro p hp
                have h0 := hinv (.ret f a :: p) (hic p hp)
                rw [passRets_ret, passCalls_ret,
                  if_pos (show strStartsWith (abspathM s.cwd f.filename)
                    s.programDir from hpass)] at h0
                rw [hstep, hc, hd, he, countRet_append, countCall_append,
                  hccΔ, hcrΔ, hcr]
                omega)
              (by
                rw [hstep, he]
                exact prefixBalanced_ret v hbal hslack hcr)
            rw [hstep] at ih ⊢
            rw [hc, hd, he] at ih
            refine ⟨?_, ?_, ih.2.2⟩
            · rw [ih.1, countCall_append, hccΔ, passCalls_ret]
              omega
            · rw [ih.2.1, countRet_append, hcrΔ, hcr, passRets_ret,
                if_pos (show strStartsWith (abspathM s.cwd f.filename)
                  s.programDir from hpass)]
              omega
          · have hstep : stepCallback s (.ret f a) = s := by
              rw [show stepCallback s (.ret f a) =
                (if framePasses s f then handleReturn s f a else s) from rfl,
                if_neg hpass]
            have ih := runCallbacks_spec rest (stepCallback s (.ret f a))
              (by
                intro p hp
                have h0 := hinv (.ret f a :: p) (hic p hp)
                rw [passRets_ret, passCalls_ret,
                  if_neg (show ¬ strStartsWith (abspathM s.cwd f.filename)
                    s.programDir = true from hpass)] at h0
                rw [hstep]
                omega)
              (by rw [hstep]; exact hbal)
            rw [hstep] at ih ⊢
            refine ⟨?_, ?_, ih.2.2⟩
            · rw [ih.1, passCalls_ret]
            · rw [ih.2.1, passRets_ret,
                if_neg (show ¬ strStartsWith (abspathM s.cwd f.filename)
                  s.programDir = true from hpass)]
              omega

end TracePy

namespace TracePy

/-- The events emitted by `Tracer.__init__`, independent of the program
path: the nine builtin `Type` definitions, the empty top-level `Path`,
the synthetic `<top-level>` `Function`, and the opening `Call`. -/
def initEvents : List Event :=
  [.typeE 7 "Integer", .typeE 9 "String", .typeE 12 "Bool",
   .typeE 9 "Symbol", .typeE 24 "No type", .typeE 8 "Float",
   .typeE 27 "Tuple", .typeE 6 "Complex", .typeE 16 "Bytes",
   .path "", .functionE 0 1 "<top-level>", .call 0 []]

/-- The state `Tracer.__init__` builds before registering anything. -/
def initState0 (cwd program : String) : TracerState :=
  { cwd := cwd, programPath := abspathM cwd program,
    programDir := parentDir (abspathM cwd program),
    events := [], paths := [], pathMap := [], varMap := [],
    functions := [], typesMap := [] }

def builtinTypesMap : List (String × Nat) :=
  [("Integer", 0), ("String", 1), ("Bool", 2), ("Symbol", 3),
   ("No type", 4), ("Float", 5), ("Tuple", 6), ("Complex", 7), ("Bytes", 8)]

theorem initTracer_eq (cwd program : String) :
    initTracer cwd program =
      emitE ((registerFunction
        ((registerPath (registerBuiltinTypes (initState0 cwd program)) "").2)
        "" 1 "<top-level>").2) (.call 0 []) := rfl

theorem initTracer_full (cwd program : String) :
    initTracer cwd program =
      { cwd := cwd, programPath := abspathM cwd program,
        programDir := parentDir (abspathM cwd program),
        events := initEvents, paths := [""], pathMap := [("", 0)],
        varMap := [], functions := [(("", 1, "<top-level>"), 0)],
        typesMap := builtinTypesMap } := by
  rw [initTracer_eq]
  have h1 : registerBuiltinTypes (initState0 cwd program) =
      { cwd := cwd, programPath := abspathM cwd program,
        programDir := parentDir (abspathM cwd program),
        events := [.typeE 7 "Integer", .typeE 9 "String", .typeE 12 "Bool",
          .typeE 9 "Symbol", .typeE 24 "No type", .typeE 8 "Float",
          .typeE 27 "Tuple", .typeE 6 "Complex", .typeE 16 "Bytes"],
        paths := [], pathMap := [], varMap := [],
        functions := [], typesMap := builtinTypesMap } := by
    simp [registerBuiltinTypes, registerType, emitE, lookupK, initState0,
      builtinTypesMap]
  rw [h1]
  have h2 : registerPath
      { cwd := cwd, programPath := abspathM cwd program,
        programDir := parentDir (abspathM cwd program),
        events := [.typeE 7 "Integer", .typeE 9 "String", .typeE 12 "Bool",
          .typeE 9 "Symbol", .typeE 24 "No type", .typeE 8 "Float",
          .typeE 27 "Tuple", .typeE 6 "Complex", .typeE 16 "Bytes"],
        paths := [], pathMap := [], varMap := [],
        functions := [], typesMap := builtinTypesMap } "" =
      (0,
       { cwd := cwd, programPath := abspathM cwd program,
         programDir := parentDir (abspathM cwd program),
         events := [.typeE 7 "Integer", .typeE 9 "String", .typeE 12 "Bool",
           .typeE 9 "Symbol", .typeE 24 "No type", .typeE 8 "Float",
           .typeE 27 "Tuple", .typeE 6 "Complex", .typeE 16 "Bytes",
           .path ""],
         paths := [""], pathMap := [("", 0)], varMap := [],
         functions := [], typesMap := builtinTypesMap }) := by
    simp [registerPath, emitE, lookupK]
  rw [h2]
  have h3 : registerFunction
      { cwd := cwd, programPath := abspathM cwd program,
        programDir := parentDir (abspathM cwd program),
        events := [.typeE 7 "Integer", .typeE 9 "String", .typeE 12 "Bool",
          .typeE 9 "Symbol", .typeE 24 "No type", .typeE 8 "Float",
          .typeE 27 "Tuple", .typeE 6 "Complex", .typeE 16 "Bytes",
          .path ""],
        paths := [""], pathMap := [("", 0)], varMap := [],
        functions := [], typesMap := builtinTypesMap } "" 1 "<top-level>" =
      (0,
       { cwd := cwd, programPath := abspathM cwd program,
         programDir := parentDir (abspathM cwd program),
         events := [.typeE 7 "Integer", .typeE 9 "String", .typeE 12 "Bool",
           .typeE 9 "Symbol", .typeE 24 "No type", .typeE 8 "Float",
           .typeE 27 "Tuple", .typeE 6 "Complex", .typeE 16 "Bytes",
           .path "", .functionE 0 1 "<top-level>"],
         paths := [""], pathMap := [("", 0)], varMap := [],
         functions := [(("", 1, "<top-level>"), 0)],
         typesMap := builtinTypesMap }) := by
    simp [registerFunction, registerPath, emitE, lookupK]
  rw [h3]
  simp [emitE, initEvents]

theorem initTracer_events (cwd program : String) :
    (initTracer cwd program).events = initEvents := by
  rw [initTracer_full]

theorem initTracer_cwd (cwd program : String) :
    (initTracer cwd program).cwd = cwd := by
  rw [initTracer_full]

theorem initTracer_programDir (cwd program : String) :
    (initTracer cwd program).programDir =
      parentDir (abspathM cwd program) := by
  rw [initTracer_full]

/-- The module frame of a tiny program `/home/user/app.py`, used as a
concrete execution. -/
def c1Frame : Frame :=
  { filename := "/home/user/app.py", lineno := 1, firstlineno := 1,
    name := "<module>", locals := [("x", .int 1)], argNames := [] }

/-- The callbacks of that execution: the module frame is called, runs
one line, and returns. This satisfies the interpreter's guarantee (each
call matched by one return, never more returns than calls). -/
def c1Cbs : List Callback :=
  [.call c1Frame, .line c1Frame, .ret c1Frame .none]

end TracePy

/-- C1 counterexample: for the well-formed execution `c1Cbs` of a
one-line program, the emitted stream has two `Call` events (the
synthetic top-level one from `Tracer.__init__` and the module frame's)
but only one `Return`: the counts are not equal, refuting the claim that
the top-level `Call` is closed by session stop. -/
theorem c1_call_return_balance_counterexample :
    TracePy.countCall
        (TracePy.traceProgram "/home/user" "app.py" TracePy.c1Cbs).events = 2 ∧
    TracePy.countRet
        (TracePy.traceProgram "/home/user" "app.py" TracePy.c1Cbs).events = 1 := by
  constructor <;> decide

/-- C1 as amended: for every execution whose callbacks satisfy the
interpreter's guarantee (in every prefix the gate-passing return
callbacks never outnumber the gate-passing call callbacks, and the totals
are equal - unwinding frames included, since the interpreter reports a
`return` callback with a `None` placeholder for them, which `trace.py`
turns into a `Return` event like any other), the emitted stream has
exactly one more `Call` than `Return` - the synthetic top-level `Call`
emitted at session start is never closed at session stop - and in no
prefix of the stream do `Return` events outnumber `Call` events. -/
theorem c1_call_return_balance_amended
    (cwd program : String) (cbs : List TracePy.Callback)
    (hp : ∀ p, p <+: cbs →
      TracePy.passRets cwd (TracePy.parentDir (TracePy.abspathM cwd program)) p ≤
      TracePy.passCalls cwd (TracePy.parentDir (TracePy.abspathM cwd program)) p)
    (ht : TracePy.passRets cwd (TracePy.parentDir (TracePy.abspathM cwd program)) cbs =
      TracePy.passCalls cwd (TracePy.parentDir (TracePy.abspathM cwd program)) cbs) :
    TracePy.countCall (TracePy.traceProgram cwd program cbs).events =
      TracePy.countRet (TracePy.traceProgram cwd program cbs).events + 1 ∧
    TracePy.prefixBalanced (TracePy.traceProgram cwd program cbs).events := by
  have hspec := TracePy.runCallbacks_spec cbs (TracePy.initTracer cwd program)
    (by
      intro p hpre
      rw [TracePy.initTracer_cwd, TracePy.initTracer_programDir,
        TracePy.initTracer_events]
      rw [show TracePy.countRet TracePy.initEvents = 0 from rfl,
        show TracePy.countCall TracePy.initEvents = 1 from rfl]
      have := hp p hpre
      omega)
    (by
      rw [TracePy.initTracer_events]
      exact TracePy.prefixBalanced_of_noRet rfl)
  rw [TracePy.initTracer_cwd, TracePy.initTracer_programDir,
    TracePy.initTracer_events] at hspec
  rw [show TracePy.countRet TracePy.initEvents = 0 from rfl,
    show TracePy.countCall TracePy.initEvents = 1 from rfl] at hspec
  refine ⟨?_, hspec.2.2⟩
  rw [show TracePy.traceProgram cwd program cbs =
    TracePy.runCallbacks (TracePy.initTracer cwd program) cbs from rfl]
  rw [hspec.1, hspec.2.1]
  omega

/-- Witness for the amended C1 at the concrete execution `c1Cbs`. -/
theorem c1_call_return_balance_amended_witness :
    (∀ p ∈ TracePy.c1Cbs.inits,
      TracePy.passRets "/home/user"
        (TracePy.parentDir (TracePy.abspathM "/home/user" "app.py")) p ≤
      TracePy.passCalls "/home/user"
        (TracePy.parentDir (TracePy.abspathM "/home/user" "app.py")) p) ∧
    TracePy.countCall
      (TracePy.traceProgram "/home/user" "app.py" TracePy.c1Cbs).events =
    TracePy.countRet
      (TracePy.traceProgram "/home/user" "app.py" TracePy.c1Cbs).events + 1 :=
  ⟨by decide,
    (c1_call_return_balance_amended "/home/user" "app.py" TracePy.c1Cbs
      (fun p hpre =>
        (by decide : ∀ p ∈ TracePy.c1Cbs.inits,
          TracePy.passRets "/home/user"
            (TracePy.parentDir (TracePy.abspathM "/home/user" "app.py")) p ≤
          TracePy.passCalls "/home/user"
            (TracePy.parentDir (TracePy.abspathM "/home/user" "app.py")) p)
          p ((List.mem_inits _ _).mpr hpre))
      (by decide)).1⟩

namespace TracePy

theorem lookupK_append_some {κ : Type} [DecidableEq κ] (k : κ) (v : Nat) :
    ∀ (m m' : List (κ × Nat)), lookupK k m = some v →
      lookupK k (m ++ m') = some v
  | [], _, h => by simp [lookupK] at h
  | (k', w) :: rest, m', h => by
      simp only [lookupK] at h
      rw [show ((k', w) :: rest) ++ m' = (k', w) :: (rest ++ m') from rfl]
      simp only [lookupK]
      by_cases hk : k = k'
      · rw [if_pos hk] at h ⊢
        exact h
      · rw [if_neg hk] at h ⊢
        exact lookupK_append_some k v rest m' h

theorem lookupK_append_right {κ : Type} [DecidableEq κ] (k : κ) (v : Nat) :
    ∀ (m : List (κ × Nat)), lookupK k m = Option.none →
      lookupK k (m ++ [(k, v)]) = some v
  | [], _ => by simp [lookupK]
  | (k', w) :: rest, h => by
      simp only [lookupK] at h
      rw [show ((k', w) :: rest) ++ [(k, v)] = (k', w) :: (rest ++ [(k, v)])
        from rfl]
      simp only [lookupK]
      by_cases hk : k = k'
      · rw [if_pos hk] at h
        simp at h
      · rw [if_neg hk] at h ⊢
        exact lookupK_append_right k v rest h

theorem lookupK_none_not_mem {κ : Type} [DecidableEq κ] (k : κ) :
    ∀ (m : List (κ × Nat)), lookupK k m = Option.none →
      k ∉ m.map Prod.fst
  | [], _ => by simp
  | (k', w) :: rest, h => by
      simp only [lookupK] at h
      by_cases hk : k = k'
      · rw [if_pos hk] at h
        simp at h
      · rw [if_neg hk] at h
        simp [hk, lookupK_none_not_mem k rest h]

end TracePy

/-- C6 as amended: for a non-empty path, `Tracer._register_path` interns
not the absolute canonicalized path but its rewrite relative to the
traced program's directory (`os.path.relpath(os.path.abspath(path),
self.program_dir)`; the absolute form survives only on the Windows-only
`ValueError` fallback, which cannot fire in this POSIX model): the
interner either finds that relativized key or appends exactly it to the
path table that `trace_paths.json` serializes verbatim. -/
theorem c6_register_path_relativizes (s : TracePy.TracerState)
    (p : String) (h : p ≠ "") :
    (TracePy.registerPath s p).2.paths = s.paths ∨
    (TracePy.registerPath s p).2.paths =
      s.paths ++ [TracePy.relpathM (TracePy.abspathM s.cwd p) s.programDir] := by
  rw [TracePy.registerPath]
  rw [if_pos h]
  cases TracePy.lookupK
    (TracePy.relpathM (TracePy.abspathM s.cwd p) s.programDir) s.pathMap with
  | some id => exact .inl rfl
  | none => exact .inr rfl

/-- Witness for the amended C6: registering the program's own absolute
path right after `__init__` stores the relative form `"app.py"`. -/
theorem c6_register_path_relativizes_witness :
    ("/home/user/app.py" ≠ "") ∧
    ((TracePy.registerPath (TracePy.initTracer "/home/user" "app.py")
        "/home/user/app.py").2.paths =
      (TracePy.initTracer "/home/user" "app.py").paths ∨
    (TracePy.registerPath (TracePy.initTracer "/home/user" "app.py")
        "/home/user/app.py").2.paths =
      (TracePy.initTracer "/home/user" "app.py").paths ++
        [TracePy.relpathM
          (TracePy.abspathM (TracePy.initTracer "/home/user" "app.py").cwd
            "/home/user/app.py")
          (TracePy.initTracer "/home/user" "app.py").programDir]) :=
  ⟨by decide,
    c6_register_path_relativizes (TracePy.initTracer "/home/user" "app.py")
      "/home/user/app.py" (by decide)⟩

/-- C6 counterexample: after the module frame of `/home/user/app.py` is
traced, the path table (serialized verbatim into `trace_paths.json`)
holds `"app.py"`, which is not an absolute path. -/
theorem c6_paths_not_absolute_counterexample :
    (TracePy.traceProgram "/home/user" "app.py" TracePy.c1Cbs).paths =
      ["", "app.py"] ∧
    TracePy.strStartsWith "app.py" "/" = false := by
  constructor <;> decide

namespace TracePy

/-- Equality of all interning maps except the type registry. -/
def mapsEq (s s' : TracerState) : Prop :=
  s'.varMap = s.varMap ∧ s'.pathMap = s.pathMap ∧ s'.paths = s.paths ∧
  s'.functions = s.functions

theorem mapsEq_refl (s : TracerState) : mapsEq s s := ⟨rfl, rfl, rfl, rfl⟩

theorem mapsEq_trans {s t u : TracerState} (h1 : mapsEq s t)
    (h2 : mapsEq t u) : mapsEq s u :=
  ⟨h2.1.trans h1.1, h2.2.1.trans h1.2.1, h2.2.2.1.trans h1.2.2.1,
    h2.2.2.2.trans h1.2.2.2⟩

theorem registerType_mapsEq (s : TracerState) (k : Nat) (n : String) :
    mapsEq s (registerType s k n).2 := by
  rw [registerType]
  cases lookupK n s.typesMap with
  | some id => exact mapsEq_refl s
  | none => exact ⟨rfl, rfl, rfl, rfl⟩

theorem ensureType_mapsEq (s : TracerState) (k : Nat) (n : String) :
    mapsEq s (ensureType s k n).2 := by
  rw [ensureType]
  cases lookupK n s.typesMap with
  | some id => exact mapsEq_refl s
  | none => exact registerType_mapsEq s k n

/-- The maps other than the type registry are untouched by `_value`. -/
theorem tracerValueF_mapsEq :
    ∀ fuel, (∀ s v, mapsEq s (tracerValueF fuel s v).2) ∧
      (∀ s l, mapsEq s (tracerValueListF fuel s l).2)
  | 0 => by
      constructor
      · intro s v
        cases v with
        | bool b => exact mapsEq_refl s
        | int i => exact mapsEq_refl s
        | float r => exact ensureType_mapsEq s 8 "Float"
        | str t => exact mapsEq_refl s
        | bytes r => exact ensureType_mapsEq s 16 "Bytes"
        | list elems => exact mapsEq_refl s
        | tuple elems => exact mapsEq_refl s
        | complex re im =>
            exact mapsEq_trans (ensureType_mapsEq s 6 "Complex")
              (mapsEq_trans (ensureType_mapsEq _ 8 "Float")
                (ensureType_mapsEq _ 8 "Float"))
        | none => exact mapsEq_refl s
        | func nm ln fn d => exact mapsEq_refl s
        | module nm d => exact mapsEq_refl s
        | obj cls d => exact mapsEq_refl s
        | other r => exact ensureType_mapsEq s 16 "Object"
      · intro s l
        cases l <;> exact mapsEq_refl s
  | fuel + 1 => by
      have ih := tracerValueF_mapsEq fuel
      constructor
      · intro s v
        cases v with
        | bool b => exact mapsEq_refl s
        | int i => exact mapsEq_refl s
        | float r => exact ensureType_mapsEq s 8 "Float"
        | str t => exact mapsEq_refl s
        | bytes r => exact ensureType_mapsEq s 16 "Bytes"
        | list elems =>
            exact mapsEq_trans (ensureType_mapsEq s 0 "Array")
              (ih.2 (ensureType s 0 "Array").2 elems)
        | tuple elems =>
            exact mapsEq_trans (ensureType_mapsEq s 27 "Tuple")
              (ih.2 (ensureType s 27 "Tuple").2 elems)
        | complex re im =>
            exact mapsEq_trans (ensureType_mapsEq s 6 "Complex")
              (mapsEq_trans (ensureType_mapsEq _ 8 "Float")
                (ensureType_mapsEq _ 8 "Float"))
        | none => exact mapsEq_refl s
        | func nm ln fn d =>
            exact mapsEq_trans (ensureType_mapsEq s 6 "function")
              (ih.2 (ensureType s 6 "function").2 d.sortByKey.values)
        | module nm d =>
            exact mapsEq_trans (ensureType_mapsEq s 6 "module")
              (ih.2 (ensureType s 6 "module").2 d.sortByKey.values)
        | obj cls d =>
            exact mapsEq_trans (ensureType_mapsEq s 6 cls)
              (ih.2 (ensureType s 6 cls).2 d.sortByKey.values)
        | other r => exact ensureType_mapsEq s 16 "Object"
      · intro s l
        cases l with
        | nil => exact mapsEq_refl s
        | cons v rest =>
            exact mapsEq_trans (ih.1 s v)
              (ih.2 (tracerValueF fuel s v).2 rest)

theorem tracerValue_varMap (s : TracerState) (v : PyVal) :
    (tracerValue s v).2.varMap = s.varMap :=
  ((tracerValueF_mapsEq v.sz).1 s v).1

end TracePy

namespace TracePy

theorem valueEventVarIds_append (a b : List Event) :
    valueEventVarIds (a ++ b) = valueEventVarIds a ++ valueEventVarIds b := by
  simp [valueEventVarIds, List.filterMap_append]

theorem registerType_valueIds (s : TracerState) (k : Nat) (n : String) :
    valueEventVarIds (registerType s k n).2.events =
      valueEventVarIds s.events := by
  rw [registerType]
  cases lookupK n s.typesMap with
  | some id => rfl
  | none =>
      rw [show (emitE { s with typesMap := s.typesMap ++ [(n, s.typesMap.length)] }
        (.typeE k n)).events = s.events ++ [.typeE k n] from rfl]
      rw [valueEventVarIds_append]
      simp [valueEventVarIds]

theorem ensureType_valueIds (s : TracerState) (k : Nat) (n : String) :
    valueEventVarIds (ensureType s k n).2.events =
      valueEventVarIds s.events := by
  rw [ensureType]
  cases lookupK n s.typesMap with
  | some id => rfl
  | none => exact registerType_valueIds s k n

/-- `_value` appends only `Type` events, so the `Value`-event id stream
is unchanged. -/
theorem tracerValueF_valueIds :
    ∀ fuel, (∀ s v, valueEventVarIds (tracerValueF fuel s v).2.events =
        valueEventVarIds s.events) ∧
      (∀ s l, valueEventVarIds (tracerValueListF fuel s l).2.events =
        valueEventVarIds s.events)
  | 0 => by
      constructor
      · intro s v
        cases v with
        | bool b => rfl
        | int i => rfl
        | float r => exact ensureType_valueIds s 8 "Float"
        | str t => rfl
        | bytes r => exact ensureType_valueIds s 16 "Bytes"
        | list elems => rfl
        | tuple elems => rfl
        | complex re im =>
            rw [show (tracerValueF 0 s (.complex re im)).2 =
              (ensureType (ensureType (ensureType s 6 "Complex").2 8
                "Float").2 8 "Float").2 from rfl]
            rw [ensureType_valueIds, ensureType_valueIds, ensureType_valueIds]
        | none => rfl
        | func nm ln fn d => rfl
        | module nm d => rfl
        | obj cls d => rfl
        | other r => exact ensureType_valueIds s 16 "Object"
      · intro s l
        cases l <;> rfl
  | fuel + 1 => by
      have ih := tracerValueF_valueIds fuel
      constructor
      · intro s v
        cases v with
        | bool b => rfl
        | int i => rfl
        | float r => exact ensureType_valueIds s 8 "Float"
        | str t => rfl
        | bytes r => exact ensureType_valueIds s 16 "Bytes"
        | list elems =>
            rw [show (tracerValueF (fuel + 1) s (.list elems)).2 =
              (tracerValueListF fuel (ensureType s 0 "Array").2 elems).2
              from rfl]
            rw [ih.2, ensureType_valueIds]
        | tuple elems =>
            rw [show (tracerValueF (fuel + 1) s (.tuple elems)).2 =
              (tracerValueListF fuel (ensureType s 27 "Tuple").2 elems).2
              from rfl]
            rw [ih.2, ensureType_valueIds]
        | complex re im =>
            rw [show (tracerValueF (fuel + 1) s (.complex re im)).2 =
              (ensureType (ensureType (ensureType s 6 "Complex").2 8
                "Float").2 8 "Float").2 from rfl]
            rw [ensureType_valueIds, ensureType_valueIds, ensureType_valueIds]
        | none => rfl
        | func nm ln fn d =>
            rw [show (tracerValueF (fuel + 1) s (.func nm ln fn d)).2 =
              (tracerValueListF fuel (ensureType s 6 "function").2
                d.sortByKey.values).2 from rfl]
            rw [ih.2, ensureType_valueIds]
        | module nm d =>
            rw [show (tracerValueF (fuel + 1) s (.module nm d)).2 =
              (tracerValueListF fuel (ensureType s 6 "module").2
                d.sortByKey.values).2 from rfl]
            rw [ih.2, ensureType_valueIds]
        | obj cls d =>
            rw [show (tracerValueF (fuel + 1) s (.obj cls d)).2 =
              (tracerValueListF fuel (ensureType s 6 cls).2
                d.sortByKey.values).2 from rfl]
            rw [ih.2, ensureType_valueIds]
        | other r => exact ensureType_valueIds s 16 "Object"
      · intro s l
        cases l with
        | nil => rfl
        | cons v rest =>
            rw [show (tracerValueListF (fuel + 1) s (.cons v rest)).2 =
              (tracerValueListF fuel (tracerValueF fuel s v).2 rest).2
              from rfl]
            rw [ih.2, ih.1]

theorem varId_valueIds (s : TracerState) (n : String) :
    valueEventVarIds (varId s n).2.events = valueEventVarIds s.events := by
  rw [varId]
  cases lookupK n s.varMap with
  | some id => rfl
  | none =>
      rw [show (emitE { s with varMap := s.varMap ++ [(n, s.varMap.length)] }
        (.variableName n)).events = s.events ++ [.variableName n] from rfl]
      rw [valueEventVarIds_append]
      simp [valueEventVarIds]

theorem varId_lookup_self (s : TracerState) (n : String) :
    lookupK n (varId s n).2.varMap = some (varId s n).1 := by
  rw [varId]
  cases hlk : lookupK n s.varMap with
  | some id => exact hlk
  | none => exact lookupK_append_right n s.varMap.length s.varMap hlk

theorem varId_preserves (s : TracerState) (n k : String) (v : Nat)
    (h : lookupK k s.varMap = some v) :
    lookupK k (varId s n).2.varMap = some v := by
  rw [varId]
  cases lookupK n s.varMap with
  | some id => exact h
  | none => exact lookupK_append_some k v s.varMap _ h

theorem varId_nodup (s : TracerState) (n : String)
    (h : (s.varMap.map Prod.fst).Nodup) :
    ((varId s n).2.varMap.map Prod.fst).Nodup := by
  rw [varId]
  cases hlk : lookupK n s.varMap with
  | some id => exact h
  | none =>
      show (List.map Prod.fst (s.varMap ++ [(n, s.varMap.length)])).Nodup
      rw [List.map_append]
      refine List.Nodup.append h (by simp) ?_
      intro a ha hb
      simp at hb
      rw [hb] at ha
      exact lookupK_none_not_mem n s.varMap hlk ha

end TracePy

namespace TracePy

/-- The names that survive the `_capture_locals` filter: not
double-underscore prefixed and not bound to a function object.
(Derived from `trace.py` lines 111–115; note the source has no module
test.) -/
def capturedNames (locals : List (String × PyVal)) : List String :=
  (locals.filter fun p =>
    !(strStartsWith p.1 "__") && !(p.2.isFunc)).map Prod.fst

theorem capturedNames_nil : capturedNames [] = [] := rfl

theorem capturedNames_cons_dunder (n : String) (v : PyVal) (rest)
    (h : strStartsWith n "__" = true) :
    capturedNames ((n, v) :: rest) = capturedNames rest := by
  simp [capturedNames, List.filter, h]

theorem capturedNames_cons_func (n : String) (v : PyVal) (rest)
    (h : v.isFunc = true) :
    capturedNames ((n, v) :: rest) = capturedNames rest := by
  simp [capturedNames, List.filter, h]

theorem capturedNames_cons_keep (n : String) (v : PyVal) (rest)
    (h1 : strStartsWith n "__" = false) (h2 : v.isFunc = false) :
    capturedNames ((n, v) :: rest) = n :: capturedNames rest := by
  simp [capturedNames, List.filter, h1, h2]

theorem captureLocals_cons (s : TracerState) (n : String) (v : PyVal)
    (rest : List (String × PyVal)) :
    captureLocals s ((n, v) :: rest) =
      if strStartsWith n "__" then captureLocals s rest
      else if v.isFunc then captureLocals s rest
      else
        captureLocals
          (emitE (tracerValue (varId s n).2 v).2
            (.valueE (varId s n).1 (tracerValue (varId s n).2 v).1))
          rest := rfl

theorem tracerValue_valueIds (s : TracerState) (v : PyVal) :
    valueEventVarIds (tracerValue s v).2.events =
      valueEventVarIds s.events :=
  (tracerValueF_valueIds v.sz).1 s v

theorem captureLocals_preserves :
    ∀ (locals : List (String × PyVal)) (s : TracerState) (k : String)
      (v : Nat), lookupK k s.varMap = some v →
      lookupK k (captureLocals s locals).varMap = some v
  | [], s, k, v, h => h
  | (n, val) :: rest, s, k, v, h => by
      rw [captureLocals_cons]
      by_cases h1 : strStartsWith n "__"
      · rw [if_pos h1]
        exact captureLocals_preserves rest s k v h
      · rw [if_neg h1]
        by_cases h2 : val.isFunc
        · rw [if_pos h2]
          exact captureLocals_preserves rest s k v h
        · rw [if_neg h2]
          refine captureLocals_preserves rest _ k v ?_
          rw [show (emitE (tracerValue (varId s n).2 val).2
            (.valueE (varId s n).1 (tracerValue (varId s n).2 val).1)).varMap
            = (tracerValue (varId s n).2 val).2.varMap from rfl]
          rw [tracerValue_varMap]
          exact varId_preserves s n k v h

/-- Exactly those locals whose name is not dunder and whose value is not
a function produce a `Value` event; each such event's `variable_id` is
the id interned for that name. -/
theorem captureLocals_valueIds :
    ∀ (locals : List (String × PyVal)) (s : TracerState),
      (s.varMap.map Prod.fst).Nodup →
      valueEventVarIds (captureLocals s locals).events =
        valueEventVarIds s.events ++
          (capturedNames locals).map (fun n =>
            (lookupK n (captureLocals s locals).varMap).getD 0)
  | [], s, h => by simp [captureLocals, capturedNames_nil]
  | (n, val) :: rest, s, h => by
      rw [captureLocals_cons]
      by_cases h1 : strStartsWith n "__"
      · rw [if_pos h1, capturedNames_cons_dunder n val rest h1]
        exact captureLocals_valueIds rest s h
      · rw [if_neg h1]
        by_cases h2 : val.isFunc
        · rw [if_pos h2, capturedNames_cons_func n val rest h2]
          exact captureLocals_valueIds rest s h
        · rw [if_neg h2]
          rw [capturedNames_cons_keep n val rest
            (by simpa using h1) (by simpa using h2)]
          have hnodup3 :
              (((emitE (tracerValue (varId s n).2 val).2
                (.valueE (varId s n).1
                  (tracerValue (varId s n).2 val).1)).varMap.map
                Prod.fst).Nodup) := by
            rw [show (emitE (tracerValue (varId s n).2 val).2
              (.valueE (varId s n).1
                (tracerValue (varId s n).2 val).1)).varMap
              = (tracerValue (varId s n).2 val).2.varMap from rfl]
            rw [tracerValue_varMap]
            exact varId_nodup s n h
          have ih := captureLocals_valueIds rest _ hnodup3
          rw [ih]
          have hev : valueEventVarIds
              (emitE (tracerValue (varId s n).2 val).2
                (.valueE (varId s n).1
                  (tracerValue (varId s n).2 val).1)).events =
              valueEventVarIds s.events ++ [(varId s n).1] := by
            rw [show (emitE (tracerValue (varId s n).2 val).2
              (.valueE (varId s n).1
                (tracerValue (varId s n).2 val).1)).events
              = (tracerValue (varId s n).2 val).2.events ++
                [.valueE (varId s n).1
                  (tracerValue (varId s n).2 val).1] from rfl]
            rw [valueEventVarIds_append, tracerValue_valueIds,
              varId_valueIds]
            rfl
          rw [hev]
          have hlk : lookupK n (captureLocals
              (emitE (tracerValue (varId s n).2 val).2
                (.valueE (varId s n).1
                  (tracerValue (varId s n).2 val).1)) rest).varMap =
              some (varId s n).1 := by
            refine captureLocals_preserves rest _ n _ ?_
            rw [show (emitE (tracerValue (varId s n).2 val).2
              (.valueE (varId s n).1
                (tracerValue (varId s n).2 val).1)).varMap
              = (tracerValue (varId s n).2 val).2.varMap from rfl]
            rw [tracerValue_varMap]
            exact varId_lookup_self s n
          rw [List.map_cons, hlk]
          simp

end TracePy

/-- Locals of a frame in which one binding holds an imported module
(`os`), one is `__builtins__`, one holds a function object, and one
holds a plain int. -/
def c7Locals : List (String × TracePy.PyVal) :=
  [("__builtins__", TracePy.PyVal.module "builtins" .nil),
   ("os", TracePy.PyVal.module "os" .nil),
   ("helper", TracePy.PyVal.func "helper" 5 "app.py" .nil),
   ("x", TracePy.PyVal.int 1)]

/-- C7 counterexample: `_capture_locals` does NOT exclude bindings whose
value is an imported module. On a locals dict holding the module `os`,
the snapshot interns the name `os` (id 0) and emits a `Value` event
naming it, contradicting the claimed module exclusion; the dunder
(`__builtins__`) and function-valued (`helper`) bindings are excluded as
claimed. -/
theorem c7_locals_filtering_counterexample :
    TracePy.lookupK "os"
      (TracePy.captureLocals (TracePy.initTracer "/home/user" "app.py")
        c7Locals).varMap = some 0 ∧
    0 ∈ TracePy.valueEventVarIds
      (TracePy.captureLocals (TracePy.initTracer "/home/user" "app.py")
        c7Locals).events ∧
    TracePy.lookupK "helper"
      (TracePy.captureLocals (TracePy.initTracer "/home/user" "app.py")
        c7Locals).varMap = Option.none ∧
    TracePy.lookupK "__builtins__"
      (TracePy.captureLocals (TracePy.initTracer "/home/user" "app.py")
        c7Locals).varMap = Option.none := by decide

/-- C7 (amended): a locals snapshot emits one `Value` event exactly for
each binding whose name is not double-underscore prefixed and whose
value is not a function object — `__builtins__` is excluded only as a
dunder, and module-valued bindings are NOT excluded — and each such
event carries the id interned for that binding's name. -/
theorem c7_locals_snapshot_filter (locals : List (String × TracePy.PyVal))
    (s : TracePy.TracerState)
    (h : (s.varMap.map Prod.fst).Nodup) :
    TracePy.valueEventVarIds (TracePy.captureLocals s locals).events =
      TracePy.valueEventVarIds s.events ++
        (TracePy.capturedNames locals).map (fun n =>
          (TracePy.lookupK n
            (TracePy.captureLocals s locals).varMap).getD 0) :=
  TracePy.captureLocals_valueIds locals s h

/-- Witness for C7 at a concrete frame. -/
theorem c7_locals_snapshot_filter_witness :
    (((TracePy.initTracer "/home/user" "app.py").varMap.map
      Prod.fst).Nodup) ∧
    TracePy.valueEventVarIds
      (TracePy.captureLocals (TracePy.initTracer "/home/user" "app.py")
        c7Locals).events =
      TracePy.valueEventVarIds
        (TracePy.initTracer "/home/user" "app.py").events ++
        (TracePy.capturedNames c7Locals).map (fun n =>
          (TracePy.lookupK n
            (TracePy.captureLocals (TracePy.initTracer "/home/user"
              "app.py") c7Locals).varMap).getD 0) :=
  ⟨by decide,
   c7_locals_snapshot_filter c7Locals
     (TracePy.initTracer "/home/user" "app.py") (by decide)⟩

namespace TracePy

mutual
/-- Number of `Raw` nodes in an encoded value whose text begins with
`"<len="` — the truncation marker the spec's bounded encoder would
produce. -/
def Value.countLenRaws : Value → Nat
  | .rawV _ r => if strStartsWith r "<len=" then 1 else 0
  | .seqV _ elems _ => elems.countLenRaws
  | .tupleV _ elems => elems.countLenRaws
  | .structV _ elems => elems.countLenRaws
  | _ => 0
def ValueList.countLenRaws : ValueList → Nat
  | .nil => 0
  | .cons v rest => v.countLenRaws + rest.countLenRaws
end

mutual
/-- Nesting depth of an encoded value (leaves have depth 0). -/
def Value.vdepth : Value → Nat
  | .seqV _ elems _ => elems.vdepthL + 1
  | .tupleV _ elems => elems.vdepthL + 1
  | .structV _ elems => elems.vdepthL + 1
  | _ => 0
def ValueList.vdepthL : ValueList → Nat
  | .nil => 0
  | .cons v rest => max v.vdepth rest.vdepthL
end

def ValueList.vlen : ValueList → Nat
  | .nil => 0
  | .cons _ rest => rest.vlen + 1

def PyValList.plen : PyValList → Nat
  | .nil => 0
  | .cons _ rest => rest.plen + 1

/-- The element list of an encoded container (empty for leaves). -/
def Value.elemsOf : Value → ValueList
  | .seqV _ elems _ => elems
  | .tupleV _ elems => elems
  | .structV _ elems => elems
  | _ => .nil

/-- A nested list `[[...[0]...]]` of depth `n`. -/
def nestList : Nat → PyVal
  | 0 => .int 0
  | n + 1 => .list (.cons (nestList n) .nil)

/-- A flat list of `k` integers. -/
def flatInts : Nat → PyValList
  | 0 => .nil
  | k + 1 => .cons (.int 0) (flatInts k)

theorem tracerValue_list_fst (s : TracerState) (elems : PyValList) :
    (tracerValue s (.list elems)).1 =
      .seqV (ensureType s 0 "Array").1
        (tracerValueList (ensureType s 0 "Array").2 elems).1 false := by
  rw [tracerValue_list]

theorem tracerValueList_cons_fst (s : TracerState) (v : PyVal)
    (rest : PyValList) :
    (tracerValueList s (.cons v rest)).1 =
      .cons (tracerValue s v).1
        (tracerValueList (tracerValue s v).2 rest).1 := by
  rw [tracerValueList_cons]

theorem tracerValueList_vlen :
    ∀ (l : PyValList) (s : TracerState),
      (tracerValueList s l).1.vlen = l.plen
  | .nil, s => rfl
  | .cons v rest, s => by
      rw [tracerValueList_cons_fst]
      rw [show ValueList.vlen (.cons (tracerValue s v).1
        (tracerValueList (tracerValue s v).2 rest).1) =
        (tracerValueList (tracerValue s v).2 rest).1.vlen + 1 from rfl]
      rw [tracerValueList_vlen rest, PyValList.plen]

theorem tracerValue_nestList :
    ∀ (n : Nat) (s : TracerState),
      (tracerValue s (nestList n)).1.vdepth = n ∧
      (tracerValue s (nestList n)).1.countLenRaws = 0
  | 0, s => by constructor <;> rfl
  | n + 1, s => by
      rw [show nestList (n + 1) = .list (.cons (nestList n) .nil) from rfl]
      rw [tracerValue_list_fst, tracerValueList_cons_fst]
      have ih := tracerValue_nestList n (ensureType s 0 "Array").2
      constructor
      · rw [show Value.vdepth (.seqV (ensureType s 0 "Array").1
          (.cons (tracerValue (ensureType s 0 "Array").2 (nestList n)).1
            (tracerValueList (tracerValue (ensureType s 0 "Array").2
              (nestList n)).2 .nil).1) false) =
          max (tracerValue (ensureType s 0 "Array").2
            (nestList n)).1.vdepth 0 + 1 from rfl]
        rw [ih.1]
        omega
      · rw [show Value.countLenRaws (.seqV (ensureType s 0 "Array").1
          (.cons (tracerValue (ensureType s 0 "Array").2 (nestList n)).1
            (tracerValueList (tracerValue (ensureType s 0 "Array").2
              (nestList n)).2 .nil).1) false) =
          (tracerValue (ensureType s 0 "Array").2
            (nestList n)).1.countLenRaws + 0 from rfl]
        rw [ih.2]

end TracePy

/-- C3 counterexample: the `_value` encoder of trace.py has no depth or
width bounds. Encoding a nested list of depth 4 yields an encoded value
of depth 4 with zero `"<len="` summaries (the spec's default depth bound
is 3), and encoding a 33-element list yields all 33 elements (the spec's
default width bound is 32). -/
theorem c3_value_bounds_counterexample :
    (TracePy.tracerValue (TracePy.initTracer "/home/user" "app.py")
      (TracePy.nestList 4)).1.vdepth = 4 ∧
    (TracePy.tracerValue (TracePy.initTracer "/home/user" "app.py")
      (TracePy.nestList 4)).1.countLenRaws = 0 ∧
    ((TracePy.tracerValue (TracePy.initTracer "/home/user" "app.py")
      (.list (TracePy.flatInts 33))).1).elemsOf.vlen = 33 := by decide

/-- C3 (amended): `_value` recurses without any depth or width bound and
never produces a `"<len=N>"` `Raw` summary: from any tracer state,
encoding a nested list of depth `n` yields an encoded value of depth
exactly `n` containing zero `"<len="` markers, and encoding any list
yields a `Sequence` with exactly as many encoded elements as the input
has. -/
theorem c3_value_encoder_unbounded (s : TracePy.TracerState) (n : Nat)
    (elems : TracePy.PyValList) :
    (TracePy.tracerValue s (TracePy.nestList n)).1.vdepth = n ∧
    (TracePy.tracerValue s (TracePy.nestList n)).1.countLenRaws = 0 ∧
    ((TracePy.tracerValue s (.list elems)).1).elemsOf.vlen =
      elems.plen := by
  refine ⟨(TracePy.tracerValue_nestList n s).1,
    (TracePy.tracerValue_nestList n s).2, ?_⟩
  rw [TracePy.tracerValue_list_fst]
  rw [show (TracePy.Value.seqV (TracePy.ensureType s 0 "Array").1
    (TracePy.tracerValueList (TracePy.ensureType s 0 "Array").2
      elems).1 false).elemsOf =
    (TracePy.tracerValueList (TracePy.ensureType s 0 "Array").2
      elems).1 from rfl]
  exact TracePy.tracerValueList_vlen elems _

namespace TracePy

/-- A Python runtime object as `_value` inspects it, with container
children given as heap addresses so that self-referential object graphs
are representable (the acyclic `PyVal` view cannot express a list that
contains itself). -/
inductive PyObj : Type
  | bool (b : Bool)
  | int (i : Int)
  | float (f : String)
  | str (t : String)
  | bytes (r : String)
  | list (elems : List Nat)
  | tuple (elems : List Nat)
  | complex (re im : String)
  | none
  | func (name : String) (line : Int) (file : String)
      (dict : List (String × Nat))
  | module (name : String) (dict : List (String × Nat))
  | obj (cls : String) (dict : List (String × Nat))
  | other (r : String)

/-- Insertion step of `sorted(val.__dict__.items(), key=lambda kv: kv[0])`
on the address-valued dict view. -/
def insertByKeyA (key : String) (a : Nat) :
    List (String × Nat) → List (String × Nat)
  | [] => [(key, a)]
  | (k, b) :: rest =>
      if key < k then (key, a) :: (k, b) :: rest
      else (k, b) :: insertByKeyA key a rest

def sortByKeyA : List (String × Nat) → List (String × Nat)
  | [] => []
  | (k, a) :: rest => insertByKeyA k a (sortByKeyA rest)

/-- The child addresses of a `__dict__`, in sorted-key order. -/
def dictAddrs (d : List (String × Nat)) : List Nat :=
  (sortByKeyA d).map Prod.snd

mutual
/-- `Tracer._value` read against a heap of possibly self-referential
objects (branches mirror the same `isinstance` arms as `tracerValueF`,
in source order). The source recursion is unbounded; `fuel` only makes
it structural, and exhausting it is the sole source of `Option.none` —
so an object on which every budget returns `Option.none` is one on
which the source recursion never returns. -/
def valueFuel : Nat → (Nat → PyObj) → TracerState → Nat →
    Option (Value × TracerState)
  | fuel, heap, s, a =>
      match fuel, heap a with
      | _, .bool b => some (.boolV (typesGet s "Bool") b, s)
      | _, .int i => some (.intV (typesGet s "Integer") i, s)
      | _, .float f =>
          let (tid, s) := ensureType s 8 "Float"
          some (.floatV tid f, s)
      | _, .str t => some (.strV (typesGet s "String") t, s)
      | _, .bytes r =>
          let (tid, s) := ensureType s 16 "Bytes"
          some (.rawV tid r, s)
      | fuel + 1, .list elems =>
          let (tid, s) := ensureType s 0 "Array"
          match valueFuelList fuel heap s elems with
          | Option.none => Option.none
          | some (vs, s) => some (.seqV tid vs false, s)
      | fuel + 1, .tuple elems =>
          let (tid, s) := ensureType s 27 "Tuple"
          match valueFuelList fuel heap s elems with
          | Option.none => Option.none
          | some (vs, s) => some (.tupleV tid vs, s)
      | _, .complex re im =>
          let (tid, s) := ensureType s 6 "Complex"
          let (ftid, s) := ensureType s 8 "Float"
          let (ftid2, s) := ensureType s 8 "Float"
          some (.structV tid
            (.cons (.floatV ftid re) (.cons (.floatV ftid2 im) .nil)), s)
      | _, .none => some (.noneV (typesGet s "No type"), s)
      | fuel + 1, .func nm ln fn dict =>
          let (tid, s) := ensureType s 6 "function"
          match valueFuelList fuel heap s (dictAddrs dict) with
          | Option.none => Option.none
          | some (vs, s) => some (.structV tid vs, s)
      | fuel + 1, .module nm dict =>
          let (tid, s) := ensureType s 6 "module"
          match valueFuelList fuel heap s (dictAddrs dict) with
          | Option.none => Option.none
          | some (vs, s) => some (.structV tid vs, s)
      | fuel + 1, .obj cls dict =>
          let (tid, s) := ensureType s 6 cls
          match valueFuelList fuel heap s (dictAddrs dict) with
          | Option.none => Option.none
          | some (vs, s) => some (.structV tid vs, s)
      | _, .other r =>
          let (tid, s) := ensureType s 16 "Object"
          some (.rawV tid r, s)
      | 0, .list _ => Option.none
      | 0, .tuple _ => Option.none
      | 0, .func _ _ _ _ => Option.none
      | 0, .module _ _ => Option.none
      | 0, .obj _ _ => Option.none

/-- The element comprehensions of `_value` over heap addresses. -/
def valueFuelList : Nat → (Nat → PyObj) → TracerState → List Nat →
    Option (ValueList × TracerState)
  | _, _, s, [] => some (.nil, s)
  | fuel + 1, heap, s, a :: rest =>
      match valueFuel fuel heap s a with
      | Option.none => Option.none
      | some (w, s) =>
          match valueFuelList fuel heap s rest with
          | Option.none => Option.none
          | some (ws, s) => some (.cons w ws, s)
  | 0, _, _, _ :: _ => Option.none
end

/-- A heap whose address 0 holds a list containing itself: the Python
program `x = []; x.append(x)`. -/
def cycHeap : Nat → PyObj := fun _ => .list [0]

theorem valueFuel_cycHeap :
    ∀ fuel : Nat,
      (∀ s : TracerState, valueFuel fuel cycHeap s 0 = Option.none) ∧
      (∀ s : TracerState, valueFuelList fuel cycHeap s [0] = Option.none)
  | 0 => ⟨fun s => rfl, fun s => rfl⟩
  | fuel + 1 => by
      have ih := valueFuel_cycHeap fuel
      constructor
      · intro s
        show (match valueFuelList fuel cycHeap
            (ensureType s 0 "Array").2 [0] with
          | Option.none => Option.none
          | some (vs, t) =>
              some (Value.seqV (ensureType s 0 "Array").1 vs false, t)) =
          Option.none
        rw [ih.2]
      · intro s
        show (match valueFuel fuel cycHeap s 0 with
          | Option.none => Option.none
          | some (w, t) =>
              match valueFuelList fuel cycHeap t [] with
              | Option.none => Option.none
              | some (ws, u) => some (ValueList.cons w ws, u)) =
          Option.none
        rw [ih.1]

end TracePy

/-- C4 counterexample: on the self-referential list `x = []; x.append(x)`,
`_value` never returns — even a recursion budget of 100 is exhausted
with no encoding produced (and in particular no `Raw("<cycle>")`): the
source carries no identity set and has no cycle branch. -/
theorem c4_value_cycle_counterexample :
    (TracePy.valueFuel 100 TracePy.cycHeap
      (TracePy.initTracer "/home/user" "app.py") 0).isNone = true := by
  decide

/-- C4 (amended/refuted): `_value` does not terminate on cyclic input.
For the heap holding a list that contains itself, no recursion budget,
however large, and no starting tracer state lets the encoder return a
value: the claimed identity set and `Raw("<cycle>")` encoding do not
exist in the source. -/
theorem c4_value_no_cycle_handling (fuel : Nat)
    (s : TracePy.TracerState) :
    TracePy.valueFuel fuel TracePy.cycHeap s 0 = Option.none :=
  (TracePy.valueFuel_cycHeap fuel).1 s

namespace TracePy

theorem lookupK_mem {κ : Type} [DecidableEq κ] (k : κ) (v : Nat) :
    ∀ m : List (κ × Nat), lookupK k m = some v → (k, v) ∈ m
  | [] => by intro h; simp [lookupK] at h
  | (k', w) :: rest => by
      intro h
      simp only [lookupK] at h
      by_cases hk : k = k'
      · rw [if_pos hk] at h
        injection h with h2
        rw [hk, ← h2]
        exact List.mem_cons_self _ _
      · rw [if_neg hk] at h
        exact List.mem_cons_of_mem _ (lookupK_mem k v rest h)

mutual
/-- Every `type_id` inside an encoded value is below `t`. -/
def Value.typesLt (t : Nat) : Value → Bool
  | .boolV tid _ => decide (tid < t)
  | .intV tid _ => decide (tid < t)
  | .floatV tid _ => decide (tid < t)
  | .strV tid _ => decide (tid < t)
  | .rawV tid _ => decide (tid < t)
  | .seqV tid elems _ => decide (tid < t) && elems.typesLtL t
  | .tupleV tid elems => decide (tid < t) && elems.typesLtL t
  | .structV tid elems => decide (tid < t) && elems.typesLtL t
  | .noneV tid => decide (tid < t)
def ValueList.typesLtL (t : Nat) : ValueList → Bool
  | .nil => true
  | .cons v rest => v.typesLt t && rest.typesLtL t
end

theorem typesLt_mono {t t' : Nat} (h : t ≤ t') :
    (∀ v : Value, Value.typesLt t v = true → Value.typesLt t' v = true) ∧
    (∀ l : ValueList, ValueList.typesLtL t l = true →
      ValueList.typesLtL t' l = true) := by
  constructor
  · intro v
    induction v using Value.rec
      (motive_2 := fun l => ValueList.typesLtL t l = true →
        ValueList.typesLtL t' l = true) <;>
      simp_all [Value.typesLt, ValueList.typesLtL] <;> omega
  · intro l
    induction l using ValueList.rec
      (motive_1 := fun v => Value.typesLt t v = true →
        Value.typesLt t' v = true) <;>
      simp_all [Value.typesLt, ValueList.typesLtL] <;> omega

/-- The per-argument condition of a well-formed `Call` event. -/
def argsOkB (v t : Nat) (args : List (Nat × Value)) : Bool :=
  args.all fun a => decide (a.1 < v) && Value.typesLt t a.2

/-- One event is well formed against the numbers of `Path`,
`VariableName`, `Type` and `Function` events already emitted: every id
it references is below the corresponding count, i.e. was defined by an
earlier event. -/
def eventOkB (p v t f : Nat) : Event → Bool
  | .functionE pid _ _ => decide (pid < p)
  | .call fid args => decide (fid < f) && argsOkB v t args
  | .ret w => Value.typesLt t w
  | .step pid _ => decide (pid < p)
  | .valueE vid w => decide (vid < v) && Value.typesLt t w
  | _ => true

/-- Every event of the stream is well formed against the definitions
that precede it, starting from the given counts. -/
def streamOkC (p v t f : Nat) : List Event → Bool
  | [] => true
  | e :: rest =>
      eventOkB p v t f e &&
      streamOkC (p + countPath [e]) (v + countVar [e]) (t + countType [e])
        (f + countFun [e]) rest

/-- Streaming parseability: every id reference in the stream resolves
to a definition emitted earlier in the same stream. -/
def streamOk (l : List Event) : Bool := streamOkC 0 0 0 0 l

theorem countPath_cons (e : Event) (l : List Event) :
    countPath (e :: l) = countPath [e] + countPath l := by
  cases e <;> simp [countPath, List.filter_cons, Nat.add_comm]

theorem countVar_cons (e : Event) (l : List Event) :
    countVar (e :: l) = countVar [e] + countVar l := by
  cases e <;> simp [countVar, List.filter_cons, Nat.add_comm]

theorem countType_cons (e : Event) (l : List Event) :
    countType (e :: l) = countType [e] + countType l := by
  cases e <;> simp [countType, List.filter_cons, Nat.add_comm]

theorem countFun_cons (e : Event) (l : List Event) :
    countFun (e :: l) = countFun [e] + countFun l := by
  cases e <;> simp [countFun, List.filter_cons, Nat.add_comm]

theorem countPath_append (a b : List Event) :
    countPath (a ++ b) = countPath a + countPath b := by
  simp [countPath, List.filter_append]

theorem countVar_append (a b : List Event) :
    countVar (a ++ b) = countVar a + countVar b := by
  simp [countVar, List.filter_append]

theorem countType_append (a b : List Event) :
    countType (a ++ b) = countType a + countType b := by
  simp [countType, List.filter_append]

theorem countFun_append (a b : List Event) :
    countFun (a ++ b) = countFun a + countFun b := by
  simp [countFun, List.filter_append]

theorem streamOkC_snoc :
    ∀ (l : List Event) (p v t f : Nat) (e : Event),
      streamOkC p v t f (l ++ [e]) =
        (streamOkC p v t f l &&
          eventOkB (p + countPath l) (v + countVar l) (t + countType l)
            (f + countFun l) e)
  | [], p, v, t, f, e => by
      simp [streamOkC, countPath, countVar, countType, countFun]
  | hd :: tl, p, v, t, f, e => by
      rw [List.cons_append]
      rw [show streamOkC p v t f (hd :: (tl ++ [e])) =
        (eventOkB p v t f hd &&
          streamOkC (p + countPath [hd]) (v + countVar [hd])
            (t + countType [hd]) (f + countFun [hd]) (tl ++ [e])) from rfl]
      rw [streamOkC_snoc tl]
      rw [show streamOkC p v t f (hd :: tl) =
        (eventOkB p v t f hd &&
          streamOkC (p + countPath [hd]) (v + countVar [hd])
            (t + countType [hd]) (f + countFun [hd]) tl) from rfl]
      rw [countPath_cons hd tl, countVar_cons hd tl, countType_cons hd tl,
        countFun_cons hd tl]
      rw [Bool.and_assoc]
      rw [Nat.add_assoc p, Nat.add_assoc v, Nat.add_assoc t, Nat.add_assoc f]

theorem streamOk_snoc (l : List Event) (e : Event) :
    streamOk (l ++ [e]) =
      (streamOk l &&
        eventOkB (countPath l) (countVar l) (countType l) (countFun l) e) := by
  have h := streamOkC_snoc l 0 0 0 0 e
  simpa [streamOk] using h

/-- The tracer-state invariant behind streaming parseability: each
interning map's length equals the count of its definition events, every
interned id is in range, at least one type is registered (the builtin
table of `__init__`), and the stream emitted so far is well formed. -/
structure Good (s : TracerState) : Prop where
  hp : countPath s.events = s.pathMap.length
  hq : s.paths.length = s.pathMap.length
  hv : countVar s.events = s.varMap.length
  ht : countType s.events = s.typesMap.length
  hf : countFun s.events = s.functions.length
  hpr : ∀ kv ∈ s.pathMap, kv.2 < s.pathMap.length
  hvr : ∀ kv ∈ s.varMap, kv.2 < s.varMap.length
  htr : ∀ kv ∈ s.typesMap, kv.2 < s.typesMap.length
  hfr : ∀ kv ∈ s.functions, kv.2 < s.functions.length
  htne : 0 < s.typesMap.length
  hok : streamOk s.events = true

theorem typesGet_lt (s : TracerState) (n : String) (hG : Good s) :
    typesGet s n < s.typesMap.length := by
  rw [typesGet]
  cases hlk : lookupK n s.typesMap with
  | some id => exact hG.htr _ (lookupK_mem n id s.typesMap hlk)
  | none => simpa using hG.htne

/-- Emitting an event that defines nothing (`Step`, `Call`, `Return`,
`Value`, `Event`) preserves the invariant when the event is well formed
against the current stream. -/
theorem good_emit_plain (s : TracerState) (e : Event) (hG : Good s)
    (he : eventOkB (countPath s.events) (countVar s.events)
      (countType s.events) (countFun s.events) e = true)
    (h1 : countPath [e] = 0) (h2 : countVar [e] = 0)
    (h3 : countType [e] = 0) (h4 : countFun [e] = 0) :
    Good (emitE s e) := by
  have hev : (emitE s e).events = s.events ++ [e] := rfl
  constructor
  · rw [hev, countPath_append, h1]; simpa using hG.hp
  · exact hG.hq
  · rw [hev, countVar_append, h2]; simpa using hG.hv
  · rw [hev, countType_append, h3]; simpa using hG.ht
  · rw [hev, countFun_append, h4]; simpa using hG.hf
  · exact hG.hpr
  · exact hG.hvr
  · exact hG.htr
  · exact hG.hfr
  · exact hG.htne
  · rw [hev, streamOk_snoc, hG.hok, he]; rfl

end TracePy

namespace TracePy

theorem registerType_good (s : TracerState) (k : Nat) (n : String)
    (hG : Good s) :
    Good (registerType s k n).2 ∧
    (registerType s k n).1 < (registerType s k n).2.typesMap.length ∧
    s.typesMap.length ≤ (registerType s k n).2.typesMap.length := by
  rw [registerType]
  cases hlk : lookupK n s.typesMap with
  | some id =>
      exact ⟨hG, hG.htr _ (lookupK_mem n id s.typesMap hlk), le_refl _⟩
  | none =>
      refine ⟨?_, ?_, ?_⟩
      · constructor
        · show countPath (s.events ++ [.typeE k n]) = s.pathMap.length
          rw [countPath_append, show countPath [Event.typeE k n] = 0 from rfl]
          simpa using hG.hp
        · exact hG.hq
        · show countVar (s.events ++ [.typeE k n]) = s.varMap.length
          rw [countVar_append, show countVar [Event.typeE k n] = 0 from rfl]
          simpa using hG.hv
        · show countType (s.events ++ [.typeE k n]) =
            (s.typesMap ++ [(n, s.typesMap.length)]).length
          rw [countType_append, show countType [Event.typeE k n] = 1 from rfl,
            List.length_append, hG.ht]
          rfl
        · show countFun (s.events ++ [.typeE k n]) = s.functions.length
          rw [countFun_append, show countFun [Event.typeE k n] = 0 from rfl]
          simpa using hG.hf
        · exact hG.hpr
        · exact hG.hvr
        · intro kv hkv
          have hkv2 : kv ∈ s.typesMap ++ [(n, s.typesMap.length)] := hkv
          show kv.2 < (s.typesMap ++ [(n, s.typesMap.length)]).length
          rw [List.length_append]
          simp only [List.length_cons, List.length_nil]
          rcases List.mem_append.mp hkv2 with h | h
          · have := hG.htr kv h
            omega
          · simp only [List.mem_singleton] at h
            rw [h]
            show s.typesMap.length < s.typesMap.length + (0 + 1)
            omega
        · exact hG.hfr
        · show 0 < (s.typesMap ++ [(n, s.typesMap.length)]).length
          rw [List.length_append]
          simp only [List.length_cons, List.length_nil]
          omega
        · show streamOk (s.events ++ [.typeE k n]) = true
          rw [streamOk_snoc, hG.hok]
          rfl
      · show s.typesMap.length < (s.typesMap ++ [(n, s.typesMap.length)]).length
        rw [List.length_append]
        simp only [List.length_cons, List.length_nil]
        omega
      · show s.typesMap.length ≤ (s.typesMap ++ [(n, s.typesMap.length)]).length
        rw [List.length_append]
        simp only [List.length_cons, List.length_nil]
        omega

theorem ensureType_good (s : TracerState) (k : Nat) (n : String)
    (hG : Good s) :
    Good (ensureType s k n).2 ∧
    (ensureType s k n).1 < (ensureType s k n).2.typesMap.length ∧
    s.typesMap.length ≤ (ensureType s k n).2.typesMap.length := by
  rw [ensureType]
  cases hlk : lookupK n s.typesMap with
  | some id =>
      exact ⟨hG, hG.htr _ (lookupK_mem n id s.typesMap hlk), le_refl _⟩
  | none => exact registerType_good s k n hG

/-- The path string `_register_path` interns: relativized unless empty. -/
def normPath (s : TracerState) (p : String) : String :=
  if p ≠ "" then relpathM (abspathM s.cwd p) s.programDir else p

theorem registerPath_eq (s : TracerState) (p : String) :
    registerPath s p =
      (match lookupK (normPath s p) s.pathMap with
      | some id => (id, s)
      | Option.none =>
          (s.paths.length,
            emitE { s with
                pathMap := s.pathMap ++ [(normPath s p, s.paths.length)],
                paths := s.paths ++ [normPath s p] }
              (.path (normPath s p)))) := rfl

theorem registerPath_good (s : TracerState) (p : String) (hG : Good s) :
    Good (registerPath s p).2 ∧
    (registerPath s p).1 < (registerPath s p).2.pathMap.length ∧
    s.pathMap.length ≤ (registerPath s p).2.pathMap.length ∧
    (registerPath s p).2.varMap = s.varMap ∧
    (registerPath s p).2.typesMap = s.typesMap ∧
    (registerPath s p).2.functions = s.functions := by
  rw [registerPath_eq]
  cases hlk : lookupK (normPath s p) s.pathMap with
  | some id =>
      exact ⟨hG, hG.hpr _ (lookupK_mem _ id _ hlk), le_refl _, rfl, rfl, rfl⟩
  | none =>
      refine ⟨?_, ?_, ?_, rfl, rfl, rfl⟩
      · constructor
        · show countPath (s.events ++ [.path (normPath s p)]) =
            (s.pathMap ++ [(normPath s p, s.paths.length)]).length
          rw [countPath_append,
            show countPath [Event.path (normPath s p)] = 1 from rfl,
            List.length_append, hG.hp]
          rfl
        · show (s.paths ++ [normPath s p]).length =
            (s.pathMap ++ [(normPath s p, s.paths.length)]).length
          rw [List.length_append, List.length_append, hG.hq]
          rfl
        · show countVar (s.events ++ [.path (normPath s p)]) = s.varMap.length
          rw [countVar_append,
            show countVar [Event.path (normPath s p)] = 0 from rfl]
          simpa using hG.hv
        · show countType (s.events ++ [.path (normPath s p)]) =
            s.typesMap.length
          rw [countType_append,
            show countType [Event.path (normPath s p)] = 0 from rfl]
          simpa using hG.ht
        · show countFun (s.events ++ [.path (normPath s p)]) =
            s.functions.length
          rw [countFun_append,
            show countFun [Event.path (normPath s p)] = 0 from rfl]
          simpa using hG.hf
        · intro kv hkv
          have hkv2 : kv ∈ s.pathMap ++ [(normPath s p, s.paths.length)] := hkv
          show kv.2 <
            (s.pathMap ++ [(normPath s p, s.paths.length)]).length
          rw [List.length_append]
          simp only [List.length_cons, List.length_nil]
          rcases List.mem_append.mp hkv2 with h | h
          · have := hG.hpr kv h
            omega
          · simp only [List.mem_singleton] at h
            rw [h]
            show s.paths.length < s.pathMap.length + (0 + 1)
            have := hG.hq
            omega
        · exact hG.hvr
        · exact hG.htr
        · exact hG.hfr
        · exact hG.htne
        · show streamOk (s.events ++ [.path (normPath s p)]) = true
          rw [streamOk_snoc, hG.hok]
          rfl
      · show s.paths.length <
          (s.pathMap ++ [(normPath s p, s.paths.length)]).length
        rw [List.length_append]
        simp only [List.length_cons, List.length_nil]
        have := hG.hq
        omega
      · show s.pathMap.length ≤
          (s.pathMap ++ [(normPath s p, s.paths.length)]).length
        rw [List.length_append]
        simp only [List.length_cons, List.length_nil]
        omega

theorem varId_good (s : TracerState) (n : String) (hG : Good s) :
    Good (varId s n).2 ∧
    (varId s n).1 < (varId s n).2.varMap.length ∧
    s.varMap.length ≤ (varId s n).2.varMap.length ∧
    (varId s n).2.typesMap = s.typesMap ∧
    (varId s n).2.functions = s.functions ∧
    (varId s n).2.pathMap = s.pathMap := by
  rw [varId]
  cases hlk : lookupK n s.varMap with
  | some id =>
      exact ⟨hG, hG.hvr _ (lookupK_mem n id s.varMap hlk), le_refl _,
        rfl, rfl, rfl⟩
  | none =>
      refine ⟨?_, ?_, ?_, rfl, rfl, rfl⟩
      · constructor
        · show countPath (s.events ++ [.variableName n]) = s.pathMap.length
          rw [countPath_append,
            show countPath [Event.variableName n] = 0 from rfl]
          simpa using hG.hp
        · exact hG.hq
        · show countVar (s.events ++ [.variableName n]) =
            (s.varMap ++ [(n, s.varMap.length)]).length
          rw [countVar_append,
            show countVar [Event.variableName n] = 1 from rfl,
            List.length_append, hG.hv]
          rfl
        · show countType (s.events ++ [.variableName n]) = s.typesMap.length
          rw [countType_append,
            show countType [Event.variableName n] = 0 from rfl]
          simpa using hG.ht
        · show countFun (s.events ++ [.variableName n]) = s.functions.length
          rw [countFun_append,
            show countFun [Event.variableName n] = 0 from rfl]
          simpa using hG.hf
        · exact hG.hpr
        · intro kv hkv
          have hkv2 : kv ∈ s.varMap ++ [(n, s.varMap.length)] := hkv
          show kv.2 < (s.varMap ++ [(n, s.varMap.length)]).length
          rw [List.length_append]
          simp only [List.length_cons, List.length_nil]
          rcases List.mem_append.mp hkv2 with h | h
          · have := hG.hvr kv h
            omega
          · simp only [List.mem_singleton] at h
            rw [h]
            show s.varMap.length < s.varMap.length + (0 + 1)
            omega
        · exact hG.htr
        · exact hG.hfr
        · exact hG.htne
        · show streamOk (s.events ++ [.variableName n]) = true
          rw [streamOk_snoc, hG.hok]
          rfl
      · show s.varMap.length < (s.varMap ++ [(n, s.varMap.length)]).length
        rw [List.length_append]
        simp only [List.length_cons, List.length_nil]
        omega
      · show s.varMap.length ≤ (s.varMap ++ [(n, s.varMap.length)]).length
        rw [List.length_append]
        simp only [List.length_cons, List.length_nil]
        omega

end TracePy

namespace TracePy

theorem registerFunction_eq (s : TracerState) (path : String) (line : Int)
    (name : String)
    (h : lookupK (path, line, name) s.functions = Option.none) :
    registerFunction s path line name =
      (s.functions.length,
        emitE (registerPath { s with functions := s.functions ++
            [((path, line, name), s.functions.length)] } path).2
          (.functionE (registerPath { s with functions := s.functions ++
            [((path, line, name), s.functions.length)] } path).1
            line name)) := by
  rw [registerFunction, h]

theorem registerFunction_good (s : TracerState) (path : String) (line : Int)
    (name : String) (hG : Good s) :
    Good (registerFunction s path line name).2 ∧
    (registerFunction s path line name).1 <
      (registerFunction s path line name).2.functions.length ∧
    (registerFunction s path line name).2.varMap = s.varMap ∧
    (registerFunction s path line name).2.typesMap = s.typesMap := by
  cases hlk : lookupK (path, line, name) s.functions with
  | some id =>
      rw [show registerFunction s path line name = (id, s) by
        rw [registerFunction, hlk]]
      exact ⟨hG, hG.hfr _ (lookupK_mem _ id _ hlk), rfl, rfl⟩
  | none =>
      rw [registerFunction_eq s path line name hlk]
      cases hlk2 : lookupK (normPath s path) s.pathMap with
      | some pid =>
          have h1 : registerPath { s with functions := s.functions ++
              [((path, line, name), s.functions.length)] } path =
              (pid, { s with functions := s.functions ++
                [((path, line, name), s.functions.length)] }) := by
            rw [registerPath_eq]
            rw [show normPath { s with functions := s.functions ++
              [((path, line, name), s.functions.length)] } path =
              normPath s path from rfl]
            rw [show ({ s with functions := s.functions ++
              [((path, line, name), s.functions.length)] } :
              TracerState).pathMap = s.pathMap from rfl]
            rw [hlk2]
          rw [h1]
          refine ⟨?_, ?_, rfl, rfl⟩
          · constructor
            · show countPath (s.events ++ [.functionE pid line name]) =
                s.pathMap.length
              rw [countPath_append,
                show countPath [Event.functionE pid line name] = 0 from rfl]
              simpa using hG.hp
            · exact hG.hq
            · show countVar (s.events ++ [.functionE pid line name]) =
                s.varMap.length
              rw [countVar_append,
                show countVar [Event.functionE pid line name] = 0 from rfl]
              simpa using hG.hv
            · show countType (s.events ++ [.functionE pid line name]) =
                s.typesMap.length
              rw [countType_append,
                show countType [Event.functionE pid line name] = 0 from rfl]
              simpa using hG.ht
            · show countFun (s.events ++ [.functionE pid line name]) =
                (s.functions ++
                  [((path, line, name), s.functions.length)]).length
              rw [countFun_append,
                show countFun [Event.functionE pid line name] = 1 from rfl,
                List.length_append, hG.hf]
              rfl
            · exact hG.hpr
            · exact hG.hvr
            · exact hG.htr
            · intro kv hkv
              have hkv2 : kv ∈ s.functions ++
                [((path, line, name), s.functions.length)] := hkv
              show kv.2 < (s.functions ++
                [((path, line, name), s.functions.length)]).length
              rw [List.length_append]
              simp only [List.length_cons, List.length_nil]
              rcases List.mem_append.mp hkv2 with h | h
              · have := hG.hfr kv h
                omega
              · simp only [List.mem_singleton] at h
                rw [h]
                show s.functions.length < s.functions.length + (0 + 1)
                omega
            · exact hG.htne
            · show streamOk (s.events ++ [.functionE pid line name]) = true
              rw [streamOk_snoc, hG.hok]
              show (true && decide (pid < countPath s.events)) = true
              rw [Bool.true_and, decide_eq_true_eq, hG.hp]
              exact hG.hpr _ (lookupK_mem _ pid _ hlk2)
          · show s.functions.length < (s.functions ++
              [((path, line, name), s.functions.length)]).length
            rw [List.length_append]
            simp only [List.length_cons, List.length_nil]
            omega
      | none =>
          have h1 : registerPath { s with functions := s.functions ++
              [((path, line, name), s.functions.length)] } path =
              (s.paths.length,
                emitE
                  { s with
                    functions := s.functions ++
                      [((path, line, name), s.functions.length)],
                    pathMap := s.pathMap ++
                      [(normPath s path, s.paths.length)],
                    paths := s.paths ++ [normPath s path] }
                  (.path (normPath s path))) := by
            rw [registerPath_eq]
            rw [show normPath { s with functions := s.functions ++
              [((path, line, name), s.functions.length)] } path =
              normPath s path from rfl]
            rw [show ({ s with functions := s.functions ++
              [((path, line, name), s.functions.length)] } :
              TracerState).pathMap = s.pathMap from rfl]
            rw [hlk2]
          rw [h1]
          refine ⟨?_, ?_, rfl, rfl⟩
          · constructor
            · show countPath ((s.events ++ [.path (normPath s path)]) ++
                [.functionE s.paths.length line name]) =
                (s.pathMap ++ [(normPath s path, s.paths.length)]).length
              rw [countPath_append, countPath_append,
                show countPath [Event.path (normPath s path)] = 1 from rfl,
                show countPath [Event.functionE s.paths.length line name] = 0
                  from rfl,
                List.length_append, hG.hp]
              rfl
            · show (s.paths ++ [normPath s path]).length =
                (s.pathMap ++ [(normPath s path, s.paths.length)]).length
              rw [List.length_append, List.length_append, hG.hq]
              rfl
            · show countVar ((s.events ++ [.path (normPath s path)]) ++
                [.functionE s.paths.length line name]) = s.varMap.length
              rw [countVar_append, countVar_append,
                show countVar [Event.path (normPath s path)] = 0 from rfl,
                show countVar [Event.functionE s.paths.length line name] = 0
                  from rfl]
              simpa using hG.hv
            · show countType ((s.events ++ [.path (normPath s path)]) ++
                [.functionE s.paths.length line name]) = s.typesMap.length
              rw [countType_append, countType_append,
                show countType [Event.path (normPath s path)] = 0 from rfl,
                show countType [Event.functionE s.paths.length line name] = 0
                  from rfl]
              simpa using hG.ht
            · show countFun ((s.events ++ [.path (normPath s path)]) ++
                [.functionE s.paths.length line name]) =
                (s.functions ++
                  [((path, line, name), s.functions.length)]).length
              rw [countFun_append, countFun_append,
                show countFun [Event.path (normPath s path)] = 0 from rfl,
                show countFun [Event.functionE s.paths.length line name] = 1
                  from rfl,
                List.length_append, hG.hf]
              rfl
            · intro kv hkv
              have hkv2 : kv ∈ s.pathMap ++
                [(normPath s path, s.paths.length)] := hkv
              show kv.2 < (s.pathMap ++
                [(normPath s path, s.paths.length)]).length
              rw [List.length_append]
              simp only [List.length_cons, List.length_nil]
              rcases List.mem_append.mp hkv2 with h | h
              · have := hG.hpr kv h
                omega
              · simp only [List.mem_singleton] at h
                rw [h]
                show s.paths.length < s.pathMap.length + (0 + 1)
                have := hG.hq
                omega
            · exact hG.hvr
            · exact hG.htr
            · intro kv hkv
              have hkv2 : kv ∈ s.functions ++
                [((path, line, name), s.functions.length)] := hkv
              show kv.2 < (s.functions ++
                [((path, line, name), s.functions.length)]).length
              rw [List.length_append]
              simp only [List.length_cons, List.length_nil]
              rcases List.mem_append.mp hkv2 with h | h
              · have := hG.hfr kv h
                omega
              · simp only [List.mem_singleton] at h
                rw [h]
                show s.functions.length < s.functions.length + (0 + 1)
                omega
            · exact hG.htne
            · show streamOk ((s.events ++ [.path (normPath s path)]) ++
                [.functionE s.paths.length line name]) = true
              rw [streamOk_snoc, streamOk_snoc, hG.hok]
              show ((true && true) && decide (s.paths.length <
                countPath (s.events ++ [.path (normPath s path)]))) = true
              rw [Bool.true_and, Bool.true_and, decide_eq_true_eq,
                countPath_append,
                show countPath [Event.path (normPath s path)] = 1 from rfl,
                hG.hp]
              have := hG.hq
              omega
          · show s.functions.length < (s.functions ++
              [((path, line, name), s.functions.length)]).length
            rw [List.length_append]
            simp only [List.length_cons, List.length_nil]
            omega

end TracePy

namespace TracePy

/-- The value encoder preserves the invariant, only grows the type
table, and every `type_id` in the encoded value is in range of the
final type table. -/
theorem tracerValueF_good :
    ∀ fuel : Nat,
      (∀ (s : TracerState) (v : PyVal), Good s →
        Good (tracerValueF fuel s v).2 ∧
        Value.typesLt (tracerValueF fuel s v).2.typesMap.length
          (tracerValueF fuel s v).1 = true ∧
        s.typesMap.length ≤ (tracerValueF fuel s v).2.typesMap.length) ∧
      (∀ (s : TracerState) (l : PyValList), Good s →
        Good (tracerValueListF fuel s l).2 ∧
        ValueList.typesLtL (tracerValueListF fuel s l).2.typesMap.length
          (tracerValueListF fuel s l).1 = true ∧
        s.typesMap.length ≤ (tracerValueListF fuel s l).2.typesMap.length)
  | 0 => by
      constructor
      · intro s v hG
        cases v with
        | bool b =>
            refine ⟨hG, ?_, le_refl _⟩
            show decide (typesGet s "Bool" < s.typesMap.length) = true
            exact decide_eq_true (typesGet_lt s "Bool" hG)
        | int i =>
            refine ⟨hG, ?_, le_refl _⟩
            show decide (typesGet s "Integer" < s.typesMap.length) = true
            exact decide_eq_true (typesGet_lt s "Integer" hG)
        | float f =>
            have h1 := ensureType_good s 8 "Float" hG
            refine ⟨h1.1, ?_, h1.2.2⟩
            show decide ((ensureType s 8 "Float").1 <
              (ensureType s 8 "Float").2.typesMap.length) = true
            exact decide_eq_true h1.2.1
        | str t =>
            refine ⟨hG, ?_, le_refl _⟩
            show decide (typesGet s "String" < s.typesMap.length) = true
            exact decide_eq_true (typesGet_lt s "String" hG)
        | bytes r =>
            have h1 := ensureType_good s 16 "Bytes" hG
            refine ⟨h1.1, ?_, h1.2.2⟩
            show decide ((ensureType s 16 "Bytes").1 <
              (ensureType s 16 "Bytes").2.typesMap.length) = true
            exact decide_eq_true h1.2.1
        | list elems =>
            refine ⟨hG, ?_, le_refl _⟩
            show decide (0 < s.typesMap.length) = true
            exact decide_eq_true hG.htne
        | tuple elems =>
            refine ⟨hG, ?_, le_refl _⟩
            show decide (0 < s.typesMap.length) = true
            exact decide_eq_true hG.htne
        | complex re im =>
            have h1 := ensureType_good s 6 "Complex" hG
            have h2 := ensureType_good (ensureType s 6 "Complex").2 8
              "Float" h1.1
            have h3 := ensureType_good
              (ensureType (ensureType s 6 "Complex").2 8 "Float").2 8
              "Float" h2.1
            refine ⟨h3.1, ?_, le_trans h1.2.2 (le_trans h2.2.2 h3.2.2)⟩
            show (decide ((ensureType s 6 "Complex").1 <
                (ensureType (ensureType (ensureType s 6 "Complex").2 8
                  "Float").2 8 "Float").2.typesMap.length) &&
              (decide ((ensureType (ensureType s 6 "Complex").2 8
                  "Float").1 <
                (ensureType (ensureType (ensureType s 6 "Complex").2 8
                  "Float").2 8 "Float").2.typesMap.length) &&
              (decide ((ensureType (ensureType (ensureType s 6
                  "Complex").2 8 "Float").2 8 "Float").1 <
                (ensureType (ensureType (ensureType s 6 "Complex").2 8
                  "Float").2 8 "Float").2.typesMap.length) && true))) = true
            rw [decide_eq_true
              (Nat.lt_of_lt_of_le h1.2.1 (le_trans h2.2.2 h3.2.2))]
            rw [decide_eq_true (Nat.lt_of_lt_of_le h2.2.1 h3.2.2)]
            rw [decide_eq_true h3.2.1]
            rfl
        | none =>
            refine ⟨hG, ?_, le_refl _⟩
            show decide (typesGet s "No type" < s.typesMap.length) = true
            exact decide_eq_true (typesGet_lt s "No type" hG)
        | func nm ln fn d =>
            refine ⟨hG, ?_, le_refl _⟩
            show decide (0 < s.typesMap.length) = true
            exact decide_eq_true hG.htne
        | module nm d =>
            refine ⟨hG, ?_, le_refl _⟩
            show decide (0 < s.typesMap.length) = true
            exact decide_eq_true hG.htne
        | obj cls d =>
            refine ⟨hG, ?_, le_refl _⟩
            show decide (0 < s.typesMap.length) = true
            exact decide_eq_true hG.htne
        | other r =>
            have h1 := ensureType_good s 16 "Object" hG
            refine ⟨h1.1, ?_, h1.2.2⟩
            show decide ((ensureType s 16 "Object").1 <
              (ensureType s 16 "Object").2.typesMap.length) = true
            exact decide_eq_true h1.2.1
      · intro s l hG
        cases l with
        | nil => exact ⟨hG, rfl, le_refl _⟩
        | cons v rest => exact ⟨hG, rfl, le_refl _⟩
  | fuel + 1 => by
      have ih := tracerValueF_good fuel
      constructor
      · intro s v hG
        cases v with
        | bool b =>
            refine ⟨hG, ?_, le_refl _⟩
            show decide (typesGet s "Bool" < s.typesMap.length) = true
            exact decide_eq_true (typesGet_lt s "Bool" hG)
        | int i =>
            refine ⟨hG, ?_, le_refl _⟩
            show decide (typesGet s "Integer" < s.typesMap.length) = true
            exact decide_eq_true (typesGet_lt s "Integer" hG)
        | float f =>
            have h1 := ensureType_good s 8 "Float" hG
            refine ⟨h1.1, ?_, h1.2.2⟩
            show decide ((ensureType s 8 "Float").1 <
              (ensureType s 8 "Float").2.typesMap.length) = true
            exact decide_eq_true h1.2.1
        | str t =>
            refine ⟨hG, ?_, le_refl _⟩
            show decide (typesGet s "String" < s.typesMap.length) = true
            exact decide_eq_true (typesGet_lt s "String" hG)
        | bytes r =>
            have h1 := ensureType_good s 16 "Bytes" hG
            refine ⟨h1.1, ?_, h1.2.2⟩
            show decide ((ensureType s 16 "Bytes").1 <
              (ensureType s 16 "Bytes").2.typesMap.length) = true
            exact decide_eq_true h1.2.1
        | list elems =>
            have h1 := ensureType_good s 0 "Array" hG
            have h2 := ih.2 (ensureType s 0 "Array").2 elems h1.1
            have e2 : (tracerValueF (fuel + 1) s (.list elems)).2 =
              (tracerValueListF fuel (ensureType s 0 "Array").2 elems).2 :=
              rfl
            have e1 : (tracerValueF (fuel + 1) s (.list elems)).1 =
              .seqV (ensureType s 0 "Array").1
                (tracerValueListF fuel (ensureType s 0 "Array").2
                  elems).1 false := rfl
            rw [e1, e2]
            refine ⟨h2.1, ?_, le_trans h1.2.2 h2.2.2⟩
            show (decide ((ensureType s 0 "Array").1 <
                (tracerValueListF fuel (ensureType s 0 "Array").2
                  elems).2.typesMap.length) &&
              ValueList.typesLtL
                (tracerValueListF fuel (ensureType s 0 "Array").2
                  elems).2.typesMap.length
                (tracerValueListF fuel (ensureType s 0 "Array").2
                  elems).1) = true
            rw [decide_eq_true (Nat.lt_of_lt_of_le h1.2.1 h2.2.2),
              h2.2.1]
            rfl
        | tuple elems =>
            have h1 := ensureType_good s 27 "Tuple" hG
            have h2 := ih.2 (ensureType s 27 "Tuple").2 elems h1.1
            have e2 : (tracerValueF (fuel + 1) s (.tuple elems)).2 =
              (tracerValueListF fuel (ensureType s 27 "Tuple").2 elems).2 :=
              rfl
            have e1 : (tracerValueF (fuel + 1) s (.tuple elems)).1 =
              .tupleV (ensureType s 27 "Tuple").1
                (tracerValueListF fuel (ensureType s 27 "Tuple").2
                  elems).1 := rfl
            rw [e1, e2]
            refine ⟨h2.1, ?_, le_trans h1.2.2 h2.2.2⟩
            show (decide ((ensureType s 27 "Tuple").1 <
                (tracerValueListF fuel (ensureType s 27 "Tuple").2
                  elems).2.typesMap.length) &&
              ValueList.typesLtL
                (tracerValueListF fuel (ensureType s 27 "Tuple").2
                  elems).2.typesMap.length
                (tracerValueListF fuel (ensureType s 27 "Tuple").2
                  elems).1) = true
            rw [decide_eq_true (Nat.lt_of_lt_of_le h1.2.1 h2.2.2),
              h2.2.1]
            rfl
        | complex re im =>
            have h1 := ensureType_good s 6 "Complex" hG
            have h2 := ensureType_good (ensureType s 6 "Complex").2 8
              "Float" h1.1
            have h3 := ensureType_good
              (ensureType (ensureType s 6 "Complex").2 8 "Float").2 8
              "Float" h2.1
            refine ⟨h3.1, ?_, le_trans h1.2.2 (le_trans h2.2.2 h3.2.2)⟩
            show (decide ((ensureType s 6 "Complex").1 <
                (ensureType (ensureType (ensureType s 6 "Complex").2 8
                  "Float").2 8 "Float").2.typesMap.length) &&
              (decide ((ensureType (ensureType s 6 "Complex").2 8
                  "Float").1 <
                (ensureType (ensureType (ensureType s 6 "Complex").2 8
                  "Float").2 8 "Float").2.typesMap.length) &&
              (decide ((ensureType (ensureType (ensureType s 6
                  "Complex").2 8 "Float").2 8 "Float").1 <
                (ensureType (ensureType (ensureType s 6 "Complex").2 8
                  "Float").2 8 "Float").2.typesMap.length) && true))) = true
            rw [decide_eq_true
              (Nat.lt_of_lt_of_le h1.2.1 (le_trans h2.2.2 h3.2.2))]
            rw [decide_eq_true (Nat.lt_of_lt_of_le h2.2.1 h3.2.2)]
            rw [decide_eq_true h3.2.1]
            rfl
        | none =>
            refine ⟨hG, ?_, le_refl _⟩
            show decide (typesGet s "No type" < s.typesMap.length) = true
            exact decide_eq_true (typesGet_lt s "No type" hG)
        | func nm ln fn d =>
            have h1 := ensureType_good s 6 "function" hG
            have h2 := ih.2 (ensureType s 6 "function").2
              d.sortByKey.values h1.1
            have e2 : (tracerValueF (fuel + 1) s (.func nm ln fn d)).2 =
              (tracerValueListF fuel (ensureType s 6 "function").2
                d.sortByKey.values).2 := rfl
            have e1 : (tracerValueF (fuel + 1) s (.func nm ln fn d)).1 =
              .structV (ensureType s 6 "function").1
                (tracerValueListF fuel (ensureType s 6 "function").2
                  d.sortByKey.values).1 := rfl
            rw [e1, e2]
            refine ⟨h2.1, ?_, le_trans h1.2.2 h2.2.2⟩
            show (decide ((ensureType s 6 "function").1 <
                (tracerValueListF fuel (ensureType s 6 "function").2
                  d.sortByKey.values).2.typesMap.length) &&
              ValueList.typesLtL
                (tracerValueListF fuel (ensureType s 6 "function").2
                  d.sortByKey.values).2.typesMap.length
                (tracerValueListF fuel (ensureType s 6 "function").2
                  d.sortByKey.values).1) = true
            rw [decide_eq_true (Nat.lt_of_lt_of_le h1.2.1 h2.2.2),
              h2.2.1]
            rfl
        | module nm d =>
            have h1 := ensureType_good s 6 "module" hG
            have h2 := ih.2 (ensureType s 6 "module").2
              d.sortByKey.values h1.1
            have e2 : (tracerValueF (fuel + 1) s (.module nm d)).2 =
              (tracerValueListF fuel (ensureType s 6 "module").2
                d.sortByKey.values).2 := rfl
            have e1 : (tracerValueF (fuel + 1) s (.module nm d)).1 =
              .structV (ensureType s 6 "module").1
                (tracerValueListF fuel (ensureType s 6 "module").2
                  d.sortByKey.values).1 := rfl
            rw [e1, e2]
            refine ⟨h2.1, ?_, le_trans h1.2.2 h2.2.2⟩
            show (decide ((ensureType s 6 "module").1 <
                (tracerValueListF fuel (ensureType s 6 "module").2
                  d.sortByKey.values).2.typesMap.length) &&
              ValueList.typesLtL
                (tracerValueListF fuel (ensureType s 6 "module").2
                  d.sortByKey.values).2.typesMap.length
                (tracerValueListF fuel (ensureType s 6 "module").2
                  d.sortByKey.values).1) = true
            rw [decide_eq_true (Nat.lt_of_lt_of_le h1.2.1 h2.2.2),
              h2.2.1]
            rfl
        | obj cls d =>
            have h1 := ensureType_good s 6 cls hG
            have h2 := ih.2 (ensureType s 6 cls).2 d.sortByKey.values h1.1
            have e2 : (tracerValueF (fuel + 1) s (.obj cls d)).2 =
              (tracerValueListF fuel (ensureType s 6 cls).2
                d.sortByKey.values).2 := rfl
            have e1 : (tracerValueF (fuel + 1) s (.obj cls d)).1 =
              .structV (ensureType s 6 cls).1
                (tracerValueListF fuel (ensureType s 6 cls).2
                  d.sortByKey.values).1 := rfl
            rw [e1, e2]
            refine ⟨h2.1, ?_, le_trans h1.2.2 h2.2.2⟩
            show (decide ((ensureType s 6 cls).1 <
                (tracerValueListF fuel (ensureType s 6 cls).2
                  d.sortByKey.values).2.typesMap.length) &&
              ValueList.typesLtL
                (tracerValueListF fuel (ensureType s 6 cls).2
                  d.sortByKey.values).2.typesMap.length
                (tracerValueListF fuel (ensureType s 6 cls).2
                  d.sortByKey.values).1) = true
            rw [decide_eq_true (Nat.lt_of_lt_of_le h1.2.1 h2.2.2),
              h2.2.1]
            rfl
        | other r =>
            have h1 := ensureType_good s 16 "Object" hG
            refine ⟨h1.1, ?_, h1.2.2⟩
            show decide ((ensureType s 16 "Object").1 <
              (ensureType s 16 "Object").2.typesMap.length) = true
            exact decide_eq_true h1.2.1
      · intro s l hG
        cases l with
        | nil => exact ⟨hG, rfl, le_refl _⟩
        | cons v rest =>
            have h1 := ih.1 s v hG
            have h2 := ih.2 (tracerValueF fuel s v).2 rest h1.1
            have e2 : (tracerValueListF (fuel + 1) s (.cons v rest)).2 =
              (tracerValueListF fuel (tracerValueF fuel s v).2 rest).2 :=
              rfl
            have e1 : (tracerValueListF (fuel + 1) s (.cons v rest)).1 =
              .cons (tracerValueF fuel s v).1
                (tracerValueListF fuel (tracerValueF fuel s v).2 rest).1 :=
              rfl
            rw [e1, e2]
            refine ⟨h2.1, ?_, le_trans h1.2.2 h2.2.2⟩
            show (Value.typesLt
                (tracerValueListF fuel (tracerValueF fuel s v).2
                  rest).2.typesMap.length (tracerValueF fuel s v).1 &&
              ValueList.typesLtL
                (tracerValueListF fuel (tracerValueF fuel s v).2
                  rest).2.typesMap.length
                (tracerValueListF fuel (tracerValueF fuel s v).2
                  rest).1) = true
            rw [(typesLt_mono h2.2.2).1 _ h1.2.1, h2.2.1]
            rfl

theorem tracerValue_good (s : TracerState) (v : PyVal) (hG : Good s) :
    Good (tracerValue s v).2 ∧
    Value.typesLt (tracerValue s v).2.typesMap.length
      (tracerValue s v).1 = true ∧
    s.typesMap.length ≤ (tracerValue s v).2.typesMap.length :=
  (tracerValueF_good v.sz).1 s v hG

end TracePy

namespace TracePy

theorem tracerValue_functions (s : TracerState) (v : PyVal) :
    (tracerValue s v).2.functions = s.functions :=
  ((tracerValueF_mapsEq v.sz).1 s v).2.2.2

theorem tracerValue_typesMono (s : TracerState) (v : PyVal) (hG : Good s) :
    s.typesMap.length ≤ (tracerValue s v).2.typesMap.length :=
  (tracerValue_good s v hG).2.2

theorem callArgs_good :
    ∀ (names : List String) (s : TracerState)
      (locals : List (String × PyVal)), Good s →
      Good (callArgs s locals names).2 ∧
      argsOkB (callArgs s locals names).2.varMap.length
        (callArgs s locals names).2.typesMap.length
        (callArgs s locals names).1 = true ∧
      (callArgs s locals names).2.functions = s.functions ∧
      s.varMap.length ≤ (callArgs s locals names).2.varMap.length ∧
      s.typesMap.length ≤ (callArgs s locals names).2.typesMap.length
  | [], s, locals, hG => ⟨hG, rfl, rfl, le_refl _, le_refl _⟩
  | name :: rest, s, locals, hG => by
      cases hlu : locals.lookup name with
      | none =>
          have e : callArgs s locals (name :: rest) =
              callArgs s locals rest := by
            simp only [callArgs, hlu]
          rw [e]
          exact callArgs_good rest s locals hG
      | some v =>
          have e : callArgs s locals (name :: rest) =
              (((varId s name).1, (tracerValue (varId s name).2 v).1) ::
                (callArgs (tracerValue (varId s name).2 v).2 locals
                  rest).1,
               (callArgs (tracerValue (varId s name).2 v).2 locals
                 rest).2) := by
            simp only [callArgs, hlu]
          rw [e]
          have h1 := varId_good s name hG
          have h2 := tracerValue_good (varId s name).2 v h1.1
          have h3 := callArgs_good rest (tracerValue (varId s name).2 v).2
            locals h2.1
          refine ⟨h3.1, ?_, ?_, ?_, ?_⟩
          · show (decide ((varId s name).1 <
                (callArgs (tracerValue (varId s name).2 v).2 locals
                  rest).2.varMap.length) &&
              Value.typesLt
                (callArgs (tracerValue (varId s name).2 v).2 locals
                  rest).2.typesMap.length
                (tracerValue (varId s name).2 v).1 &&
              argsOkB
                (callArgs (tracerValue (varId s name).2 v).2 locals
                  rest).2.varMap.length
                (callArgs (tracerValue (varId s name).2 v).2 locals
                  rest).2.typesMap.length
                (callArgs (tracerValue (varId s name).2 v).2 locals
                  rest).1) = true
            have hvid : (varId s name).1 <
                (callArgs (tracerValue (varId s name).2 v).2 locals
                  rest).2.varMap.length := by
              have hx : (tracerValue (varId s name).2 v).2.varMap =
                (varId s name).2.varMap := tracerValue_varMap _ _
              have := h3.2.2.2.1
              rw [hx] at this
              exact Nat.lt_of_lt_of_le h1.2.1 this
            rw [decide_eq_true hvid]
            rw [(typesLt_mono h3.2.2.2.2).1 _ h2.2.1]
            rw [h3.2.1]
            rfl
          · rw [h3.2.2.1, tracerValue_functions, h1.2.2.2.2.1]
          · have hx : (tracerValue (varId s name).2 v).2.varMap =
              (varId s name).2.varMap := tracerValue_varMap _ _
            have := h3.2.2.2.1
            rw [hx] at this
            exact le_trans h1.2.2.1 this
          · have hx : (varId s name).2.typesMap = s.typesMap :=
              h1.2.2.2.1
            have := h2.2.2
            rw [hx] at this
            exact le_trans this h3.2.2.2.2

theorem captureLocals_good :
    ∀ (locals : List (String × PyVal)) (s : TracerState), Good s →
      Good (captureLocals s locals)
  | [], s, hG => hG
  | (n, val) :: rest, s, hG => by
      rw [captureLocals_cons]
      by_cases h1 : strStartsWith n "__"
      · rw [if_pos h1]
        exact captureLocals_good rest s hG
      · rw [if_neg h1]
        by_cases h2 : val.isFunc
        · rw [if_pos h2]
          exact captureLocals_good rest s hG
        · rw [if_neg h2]
          have hv := varId_good s n hG
          have hw := tracerValue_good (varId s n).2 val hv.1
          refine captureLocals_good rest _ ?_
          refine good_emit_plain _ _ hw.1 ?_ rfl rfl rfl rfl
          show (decide ((varId s n).1 <
              countVar (tracerValue (varId s n).2 val).2.events) &&
            Value.typesLt
              (countType (tracerValue (varId s n).2 val).2.events)
              (tracerValue (varId s n).2 val).1) = true
          rw [hw.1.hv, tracerValue_varMap]
          rw [decide_eq_true hv.2.1]
          rw [hw.1.ht, hw.2.1]
          rfl

theorem registerFunctionsInLocals_good (s : TracerState) (f : Frame)
    (hG : Good s) : Good (registerFunctionsInLocals s f) := by
  rw [registerFunctionsInLocals]
  have step : ∀ (items : List (String × PyVal)) (t : TracerState),
      Good t →
      Good (items.foldl
        (fun t nv =>
          match nv.2 with
          | .func fname fline ffile _ =>
              if fline = f.lineno then
                (registerFunction t (abspathM t.cwd ffile) fline fname).2
              else t
          | _ => t)
        t) := by
    intro items
    induction items with
    | nil => intro t hGt; exact hGt
    | cons nv rest ih =>
        intro t hGt
        rw [List.foldl_cons]
        refine ih _ ?_
        rcases nv with ⟨nm, v⟩
        cases v with
        | bool b => exact hGt
        | int i => exact hGt
        | float r => exact hGt
        | str r => exact hGt
        | bytes r => exact hGt
        | list elems => exact hGt
        | tuple elems => exact hGt
        | complex re im => exact hGt
        | none => exact hGt
        | func fname fline ffile d =>
            show Good (if fline = f.lineno then
              (registerFunction t (abspathM t.cwd ffile) fline fname).2
              else t)
            by_cases hl : fline = f.lineno
            · rw [if_pos hl]
              exact (registerFunction_good t _ fline fname hGt).1
            · rw [if_neg hl]
              exact hGt
        | module nm2 d => exact hGt
        | obj cls d => exact hGt
        | other r => exact hGt
  exact step f.locals s hG

end TracePy

namespace TracePy

theorem handleLine_good (s : TracerState) (f : Frame) (hG : Good s) :
    Good (handleLine s f) := by
  rw [handleLine_eq]
  have h1 := registerPath_good s (abspathM s.cwd f.filename) hG
  have h2 : Good (emitE (registerPath s (abspathM s.cwd f.filename)).2
      (.step (registerPath s (abspathM s.cwd f.filename)).1 f.lineno)) := by
    refine good_emit_plain _ _ h1.1 ?_ rfl rfl rfl rfl
    show decide ((registerPath s (abspathM s.cwd f.filename)).1 <
      countPath (registerPath s (abspathM s.cwd f.filename)).2.events) =
      true
    rw [h1.1.hp]
    exact decide_eq_true h1.2.1
  exact captureLocals_good f.locals _
    (registerFunctionsInLocals_good _ f h2)

theorem handleCall_good (s : TracerState) (f : Frame) (hG : Good s) :
    Good (handleCall s f) := by
  rw [handleCall_eq]
  have h1 := registerFunction_good s (abspathM s.cwd f.filename)
    f.firstlineno f.name hG
  have h2 := callArgs_good f.argNames
    (registerFunction s (abspathM s.cwd f.filename) f.firstlineno
      f.name).2 f.locals h1.1
  refine good_emit_plain _ _ h2.1 ?_ rfl rfl rfl rfl
  show (decide ((registerFunction s (abspathM s.cwd f.filename)
      f.firstlineno f.name).1 <
    countFun (callArgs (registerFunction s (abspathM s.cwd f.filename)
      f.firstlineno f.name).2 f.locals f.argNames).2.events) &&
    argsOkB
      (countVar (callArgs (registerFunction s (abspathM s.cwd f.filename)
        f.firstlineno f.name).2 f.locals f.argNames).2.events)
      (countType (callArgs (registerFunction s (abspathM s.cwd
        f.filename) f.firstlineno f.name).2 f.locals f.argNames).2.events)
      (callArgs (registerFunction s (abspathM s.cwd f.filename)
        f.firstlineno f.name).2 f.locals f.argNames).1) = true
  rw [h2.1.hf, h2.1.hv, h2.1.ht, h2.2.2.1]
  rw [decide_eq_true h1.2.1, h2.2.1]
  rfl

theorem handleReturn_good (s : TracerState) (f : Frame) (a : PyVal)
    (hG : Good s) : Good (handleReturn s f a) := by
  rw [handleReturn_eq]
  have h1 := registerPath_good s (abspathM s.cwd f.filename) hG
  have h2 : Good (emitE (registerPath s (abspathM s.cwd f.filename)).2
      (.step (registerPath s (abspathM s.cwd f.filename)).1 f.lineno)) := by
    refine good_emit_plain _ _ h1.1 ?_ rfl rfl rfl rfl
    show decide ((registerPath s (abspathM s.cwd f.filename)).1 <
      countPath (registerPath s (abspathM s.cwd f.filename)).2.events) =
      true
    rw [h1.1.hp]
    exact decide_eq_true h1.2.1
  have h3 := captureLocals_good f.locals _ h2
  rw [retTail]
  have h4 := varId_good (captureLocals
    (emitE (registerPath s (abspathM s.cwd f.filename)).2
      (.step (registerPath s (abspathM s.cwd f.filename)).1 f.lineno))
    f.locals) "<return_value>" h3
  have h5 := tracerValue_good (varId (captureLocals
    (emitE (registerPath s (abspathM s.cwd f.filename)).2
      (.step (registerPath s (abspathM s.cwd f.filename)).1 f.lineno))
    f.locals) "<return_value>").2 a h4.1
  have h6 : Good (emitE (tracerValue (varId (captureLocals
      (emitE (registerPath s (abspathM s.cwd f.filename)).2
        (.step (registerPath s (abspathM s.cwd f.filename)).1 f.lineno))
      f.locals) "<return_value>").2 a).2
      (.valueE (varId (captureLocals
        (emitE (registerPath s (abspathM s.cwd f.filename)).2
          (.step (registerPath s (abspathM s.cwd f.filename)).1
            f.lineno)) f.locals) "<return_value>").1
        (tracerValue (varId (captureLocals
          (emitE (registerPath s (abspathM s.cwd f.filename)).2
            (.step (registerPath s (abspathM s.cwd f.filename)).1
              f.lineno)) f.locals) "<return_value>").2 a).1)) := by
    refine good_emit_plain _ _ h5.1 ?_ rfl rfl rfl rfl
    show (decide ((varId (captureLocals
        (emitE (registerPath s (abspathM s.cwd f.filename)).2
          (.step (registerPath s (abspathM s.cwd f.filename)).1
            f.lineno)) f.locals) "<return_value>").1 <
      countVar (tracerValue (varId (captureLocals
        (emitE (registerPath s (abspathM s.cwd f.filename)).2
          (.step (registerPath s (abspathM s.cwd f.filename)).1
            f.lineno)) f.locals) "<return_value>").2 a).2.events) &&
      Value.typesLt
        (countType (tracerValue (varId (captureLocals
          (emitE (registerPath s (abspathM s.cwd f.filename)).2
            (.step (registerPath s (abspathM s.cwd f.filename)).1
              f.lineno)) f.locals) "<return_value>").2 a).2.events)
        (tracerValue (varId (captureLocals
          (emitE (registerPath s (abspathM s.cwd f.filename)).2
            (.step (registerPath s (abspathM s.cwd f.filename)).1
              f.lineno)) f.locals) "<return_value>").2 a).1) = true
    rw [h5.1.hv, tracerValue_varMap]
    rw [decide_eq_true h4.2.1]
    rw [h5.1.ht, h5.2.1]
    rfl
  refine good_emit_plain _ _ h6 ?_ rfl rfl rfl rfl
  show Value.typesLt (countType (emitE (tracerValue (varId (captureLocals
      (emitE (registerPath s (abspathM s.cwd f.filename)).2
        (.step (registerPath s (abspathM s.cwd f.filename)).1 f.lineno))
      f.locals) "<return_value>").2 a).2
      (.valueE (varId (captureLocals
        (emitE (registerPath s (abspathM s.cwd f.filename)).2
          (.step (registerPath s (abspathM s.cwd f.filename)).1
            f.lineno)) f.locals) "<return_value>").1
        (tracerValue (varId (captureLocals
          (emitE (registerPath s (abspathM s.cwd f.filename)).2
            (.step (registerPath s (abspathM s.cwd f.filename)).1
              f.lineno)) f.locals) "<return_value>").2 a).1)).events)
    (tracerValue (varId (captureLocals
      (emitE (registerPath s (abspathM s.cwd f.filename)).2
        (.step (registerPath s (abspathM s.cwd f.filename)).1 f.lineno))
      f.locals) "<return_value>").2 a).1 = true
  rw [h6.ht]
  exact h5.2.1

theorem interceptorWrite_good (s : TracerState) (text : String)
    (hG : Good s) : Good (interceptorWrite s text) := by
  rw [interceptorWrite]
  by_cases h : text ≠ "" ∧ text ≠ "\n"
  · rw [if_pos h]
    exact good_emit_plain _ _ hG rfl rfl rfl rfl rfl
  · rw [if_neg h]
    exact hG

theorem stepCallback_good (s : TracerState) (cb : Callback) (hG : Good s) :
    Good (stepCallback s cb) := by
  cases cb with
  | call f =>
      show Good (if framePasses s f then handleCall s f else s)
      by_cases hfp : framePasses s f
      · rw [if_pos hfp]
        exact handleCall_good s f hG
      · rw [if_neg hfp]
        exact hG
  | line f =>
      show Good (if framePasses s f then handleLine s f else s)
      by_cases hfp : framePasses s f
      · rw [if_pos hfp]
        exact handleLine_good s f hG
      · rw [if_neg hfp]
        exact hG
  | ret f arg =>
      show Good (if framePasses s f then handleReturn s f arg else s)
      by_cases hfp : framePasses s f
      · rw [if_pos hfp]
        exact handleReturn_good s f arg hG
      · rw [if_neg hfp]
        exact hG
  | write t =>
      exact interceptorWrite_good s t hG

theorem runCallbacks_good :
    ∀ (cbs : List Callback) (s : TracerState), Good s →
      Good (runCallbacks s cbs)
  | [], s, hG => hG
  | cb :: rest, s, hG =>
      runCallbacks_good rest (stepCallback s cb) (stepCallback_good s cb hG)

theorem initTracer_good (cwd program : String) :
    Good (initTracer cwd program) := by
  rw [initTracer_full]
  constructor
  · show countPath initEvents = ([("", 0)] : List (String × Nat)).length
    decide
  · show ([""] : List String).length =
      ([("", 0)] : List (String × Nat)).length
    decide
  · show countVar initEvents = ([] : List (String × Nat)).length
    decide
  · show countType initEvents = builtinTypesMap.length
    decide
  · show countFun initEvents =
      ([(("", 1, "<top-level>"), 0)] :
        List ((String × Int × String) × Nat)).length
    decide
  · show ∀ kv ∈ ([("", 0)] : List (String × Nat)),
      kv.2 < ([("", 0)] : List (String × Nat)).length
    decide
  · show ∀ kv ∈ ([] : List (String × Nat)),
      kv.2 < ([] : List (String × Nat)).length
    decide
  · show ∀ kv ∈ builtinTypesMap, kv.2 < builtinTypesMap.length
    decide
  · show ∀ kv ∈ ([(("", 1, "<top-level>"), 0)] :
        List ((String × Int × String) × Nat)),
      kv.2 < ([(("", 1, "<top-level>"), 0)] :
        List ((String × Int × String) × Nat)).length
    decide
  · show 0 < builtinTypesMap.length
    decide
  · show streamOk initEvents = true
    decide

end TracePy

/-- C5: in every event stream emitted by a traced run, every id
reference resolves to a definition emitted earlier in the same stream:
each `Function` and `Step` event's `path_id` is below the number of
`Path` events before it, each `Call`'s `function_id` below the number
of earlier `Function` events, each `Value` (and `Call` argument)
`variable_id` below the number of earlier `VariableName` events, and
every `type_id` inside an encoded value below the number of earlier
`Type` events. -/
theorem c5_stream_references_resolve (cwd program : String)
    (cbs : List TracePy.Callback) :
    TracePy.streamOk (TracePy.traceProgram cwd program cbs).events =
      true :=
  (TracePy.runCallbacks_good cbs (TracePy.initTracer cwd program)
    (TracePy.initTracer_good cwd program)).hok
